import Mathlib

set_option maxHeartbeats 1000000

namespace Pyrit

/-! Shallow embedding of Pyrit's storage codecs, password store, packet
reconstruction and compute scheduler, together with theorems settling the
specification claims.  Byte strings are modelled as `List Nat`. -/

abbrev Bytes := List Nat

/-- Python `s.split(sep)` for a one-byte separator: one more part than there
are separator occurrences; splitting the empty string yields `[[]]`. -/
def splitOnByte (d : Nat) : Bytes → List Bytes
  | [] => [[]]
  | b :: rest =>
    let r := splitOnByte d rest
    if b = d then [] :: r else (b :: r.headI) :: r.tail

/-- Python `sep.join(parts)` for a one-byte separator. -/
def joinBy (d : Nat) : List Bytes → Bytes
  | [] => []
  | [x] => x
  | x :: y :: tl => x ++ d :: joinBy d (y :: tl)

theorem splitOnByte_ne_nil (d : Nat) (s : Bytes) : splitOnByte d s ≠ [] := by
  cases s with
  | nil => simp [splitOnByte]
  | cons b rest =>
    simp only [splitOnByte]
    by_cases h : b = d <;> simp [h]

theorem splitOnByte_no_sep (d : Nat) (x : Bytes) (h : d ∉ x) :
    splitOnByte d x = [x] := by
  induction x with
  | nil => rfl
  | cons a tl ih =>
    have ha : a ≠ d := by intro he; exact h (he ▸ List.mem_cons_self a tl)
    have htl : d ∉ tl := fun hm => h (List.mem_cons_of_mem a hm)
    simp [splitOnByte, ha, ih htl]

theorem splitOnByte_append_sep (d : Nat) (x s : Bytes) (h : d ∉ x) :
    splitOnByte d (x ++ d :: s) = x :: splitOnByte d s := by
  induction x with
  | nil => simp [splitOnByte]
  | cons a tl ih =>
    have ha : a ≠ d := by intro he; exact h (he ▸ List.mem_cons_self a tl)
    have htl : d ∉ tl := fun hm => h (List.mem_cons_of_mem a hm)
    simp only [List.cons_append, splitOnByte, List.append_eq]
    rw [ih htl]
    simp [ha]

theorem splitOnByte_joinBy (d : Nat) (parts : List Bytes) (hne : parts ≠ [])
    (hns : ∀ p ∈ parts, d ∉ p) :
    splitOnByte d (joinBy d parts) = parts := by
  induction parts with
  | nil => exact absurd rfl hne
  | cons x tl ih =>
    cases tl with
    | nil =>
      simp only [joinBy]
      exact splitOnByte_no_sep d x (hns x (List.mem_cons_self x []))
    | cons y tl2 =>
      have hx : d ∉ x := hns x (List.mem_cons_self x _)
      have hrest : ∀ p ∈ y :: tl2, d ∉ p := fun p hp =>
        hns p (List.mem_cons_of_mem x hp)
      simp only [joinBy]
      rw [splitOnByte_append_sep d x _ hx, ih (by simp) hrest]

/-- Lowercase hex digit, as an ASCII byte (Python `%02x`). -/
def hexChar (n : Nat) : Nat := if n < 10 then 48 + n else 87 + n

/-- Python `hashlib`'s `.hexdigest()`: two lowercase hex chars per byte. -/
def hexdigest : Bytes → Bytes
  | [] => []
  | b :: tl => hexChar (b / 16) :: hexChar (b % 16) :: hexdigest tl

/-- The external primitives (zlib, hashlib-md5) used by the storage codecs.
They are out of scope for the code under verification and are abstracted as
an arbitrary structure satisfying their interface contract. -/
structure Codec where
  compress : Bytes → Bytes
  decompress : Bytes → Bytes
  md5 : Bytes → Bytes
  decompress_compress : ∀ b, decompress (compress b) = b
  md5_length : ∀ b, (md5 b).length = 16

/-- Python-level exceptions raised by the storage layer. `DigestError` is a
subclass of `StorageError` in the source; the constructors are kept distinct
so theorems can tell them apart. -/
inductive PyErr where
  | storageError (msg : String)
  | digestError (msg : String)
  | keyErrorStr (key : String)
  | keyErrorBytes (key : Bytes)
  | indexError (msg : String)
  | valueError (msg : String)
  | ioError (msg : String)
  | assertionError
deriving DecidableEq, Repr

/-- Lookup in an association list modelling a Python dict. -/
def assocFind {κ ν : Type} [DecidableEq κ] (k : κ) : List (κ × ν) → Option ν
  | [] => none
  | (k2, v) :: tl => if k2 = k then some v else assocFind k tl

/-- Insert-or-replace in an association list modelling a Python dict (an
existing binding is replaced in place, a new one appended at the end). -/
def assocSet {κ ν : Type} [DecidableEq κ] (k : κ) (v : ν) :
    List (κ × ν) → List (κ × ν)
  | [] => [(k, v)]
  | (k2, v2) :: tl => if k2 = k then (k, v) :: tl else (k2, v2) :: assocSet k v tl

/-- Deletion from an association list modelling a Python dict. -/
def assocErase {κ ν : Type} [DecidableEq κ] (k : κ) :
    List (κ × ν) → List (κ × ν)
  | [] => []
  | (k2, v2) :: tl => if k2 = k then tl else (k2, v2) :: assocErase k tl

/-- The four magic bytes `"PAW2"`. -/
def paw2Magic : Bytes := [80, 65, 87, 50]

/-- `PAW2_Buffer.pack`: newline-join, zlib-compress, md5 over the compressed
body; returns `(key, buffer)` with the key being the md5 hexdigest. -/
def PAW2_pack (C : Codec) (collection : List Bytes) : Bytes × Bytes :=
  let b := C.compress (joinBy 10 collection)
  let d := C.md5 b
  (hexdigest d, paw2Magic ++ d ++ b)

/-- `PAW2_Buffer.unpack`: check magic, check digest of the payload, then
decompress and split on newline; returns `(collection, key)`. -/
def PAW2_unpack (C : Codec) (buf : Bytes) : Except PyErr (List Bytes × Bytes) :=
  if buf.take 4 ≠ paw2Magic then .error (.storageError "Not a PAW2-buffer.")
  else
    let payload := buf.drop 20
    let digest := (buf.drop 4).take 16
    if C.md5 payload ≠ digest then .error (.digestError "Digest check failed")
    else .ok (splitOnByte 10 (C.decompress payload), hexdigest (C.md5 payload))

/-- A concrete instance of the external primitives, used for witnesses and
counterexamples: identity compression and a 16-byte length-based digest. -/
def testCodec : Codec where
  compress := id
  decompress := id
  md5 := fun b => b.length % 256 :: List.replicate 15 0
  decompress_compress := fun _ => rfl
  md5_length := by intro b; simp

theorem paw2_pack_unpack (C : Codec) (P : List Bytes) :
    PAW2_unpack C (PAW2_pack C P).2 =
      .ok (splitOnByte 10 (joinBy 10 P),
           hexdigest (C.md5 (C.compress (joinBy 10 P)))) := by
  have hmag : paw2Magic.length = 4 := rfl
  have hd : (C.md5 (C.compress (joinBy 10 P))).length = 16 := C.md5_length _
  simp only [PAW2_pack, PAW2_unpack]
  rw [List.append_assoc]
  have htake : (paw2Magic ++
      (C.md5 (C.compress (joinBy 10 P)) ++ C.compress (joinBy 10 P))).take 4
      = paw2Magic := by
    rw [← hmag, List.take_left]
  have hdrop : (paw2Magic ++
      (C.md5 (C.compress (joinBy 10 P)) ++ C.compress (joinBy 10 P))).drop 4
      = C.md5 (C.compress (joinBy 10 P)) ++ C.compress (joinBy 10 P) := by
    rw [← hmag, List.drop_left]
  have hdrop20 : (paw2Magic ++
      (C.md5 (C.compress (joinBy 10 P)) ++ C.compress (joinBy 10 P))).drop 20
      = C.compress (joinBy 10 P) := by
    have : (20 : Nat) = paw2Magic.length +
        (C.md5 (C.compress (joinBy 10 P))).length := by rw [hmag, hd]
    rw [this, List.drop_append, List.drop_left]
  rw [htake, hdrop, hdrop20]
  rw [if_neg (by simp)]
  rw [(List.take_left' hd :
        (C.md5 (C.compress (joinBy 10 P)) ++ C.compress (joinBy 10 P)).take 16
          = C.md5 (C.compress (joinBy 10 P)))]
  rw [if_neg (by simp)]
  rw [C.decompress_compress]

/-- C5 (amended): for every nonempty collection of passwords none of which
contains the newline byte, packing as a PAW2 buffer and unpacking the result
yields exactly the original collection (hence a collection equal to it as a
set), and the key produced by packing equals the lowercase hex MD5 digest of
the zlib-compressed newline-joined body. -/
theorem C5_paw2_roundtrip (C : Codec) (P : List Bytes) (hne : P ≠ [])
    (hnl : ∀ p ∈ P, 10 ∉ p) :
    PAW2_unpack C (PAW2_pack C P).2 =
      .ok (P, hexdigest (C.md5 (C.compress (joinBy 10 P)))) ∧
    (PAW2_pack C P).1 = hexdigest (C.md5 (C.compress (joinBy 10 P))) := by
  refine ⟨?_, rfl⟩
  rw [paw2_pack_unpack, splitOnByte_joinBy 10 P hne hnl]

/-- Witness for C5 at the concrete collection `["abcdefgh"]` with the
concrete codec instance. -/
theorem C5_paw2_roundtrip_witness :
    ([[97, 98, 99, 100, 101, 102, 103, 104]] : List Bytes) ≠ [] ∧
    (∀ p ∈ ([[97, 98, 99, 100, 101, 102, 103, 104]] : List Bytes), 10 ∉ p) ∧
    (PAW2_unpack testCodec
        (PAW2_pack testCodec [[97, 98, 99, 100, 101, 102, 103, 104]]).2 =
      .ok ([[97, 98, 99, 100, 101, 102, 103, 104]],
        hexdigest (testCodec.md5 (testCodec.compress
          (joinBy 10 [[97, 98, 99, 100, 101, 102, 103, 104]])))) ∧
    (PAW2_pack testCodec [[97, 98, 99, 100, 101, 102, 103, 104]]).1 =
      hexdigest (testCodec.md5 (testCodec.compress
        (joinBy 10 [[97, 98, 99, 100, 101, 102, 103, 104]])))) :=
  ⟨by decide, by decide,
    C5_paw2_roundtrip testCodec [[97, 98, 99, 100, 101, 102, 103, 104]]
      (by decide) (by decide)⟩

/-- Normalization of one endpoint of a Python slice over a sequence of
length `n`: negative values count from the end, and both ends clamp. -/
def pyNorm (n : Nat) (i : Int) : Nat :=
  if i < 0 then (i + n).toNat else min i.toNat n

/-- Python `s[a:b]` slice semantics. -/
def pySlice (s : Bytes) (a b : Int) : Bytes :=
  (s.take (pyNorm s.length b)).drop (pyNorm s.length a)

/-- Little-endian unsigned 16-bit integer from two bytes. -/
def le16 (b0 b1 : Nat) : Nat := b0 + 256 * b1

/-- Little-endian signed 32-bit integer (struct format `i`) from the first
four bytes of a list. -/
def le32s (l : Bytes) : Int :=
  let u := l.headI + 256 * (l.drop 1).headI + 65536 * (l.drop 2).headI +
    16777216 * (l.drop 3).headI
  if u < 2147483648 then (u : Int) else (u : Int) - 4294967296

/-- The four magic bytes `"PYR2"`. -/
def pyr2Magic : Bytes := [80, 89, 82, 50]

/-- The four magic bytes `"PYRT"`. -/
def pyrtMagic : Bytes := [80, 89, 82, 84]

/-- The password delimiter selected by `BasePYR_Buffer.unpack`: newline for
PYR2 buffers, NUL for legacy PYRT buffers. -/
def pyrDelim (magic : Bytes) : Nat := if magic = pyr2Magic then 10 else 0

/-- The fields extracted from a PYR2/PYRT buffer by
`BasePYR_Buffer.unpack`. -/
structure PYRBuf where
  magic : Bytes
  essid : Bytes
  numElems : Int
  digest : Bytes
  pmkbuffer : Bytes
  pwbuffer : Bytes
deriving DecidableEq, Repr

/-- `BasePYR_Buffer.unpack` up to the region slicing, without the final
check that the PMK region is a multiple of 32 bytes. -/
def pyrSplitBuf (buf : Bytes) : Except PyErr PYRBuf :=
  if buf.length < 6 then .error (.storageError "Buffer too short")
  else
    let magic := buf.take 4
    if _hm : magic = pyr2Magic ∨ magic = pyrtMagic then
      let essidlen := le16 ((buf.drop 4).headI) ((buf.drop 5).headI)
      let headsize := essidlen + 20
      let header := (buf.drop 6).take headsize
      if header.length ≠ headsize then .error (.storageError "Invalid header size")
      else
        let essid := header.take essidlen
        let numElems := le32s (header.drop essidlen)
        let digest := (header.drop (essidlen + 4)).take 16
        let pmkoffset : Int := 6 + headsize
        let pwoffset : Int := pmkoffset + numElems * 32
        let pwbuffer := pySlice buf pwoffset buf.length
        let pmkbuffer := pySlice buf pmkoffset pwoffset
        .ok ⟨magic, essid, numElems, digest, pmkbuffer, pwbuffer⟩
    else .error (.storageError "Not a PYRT- or PYR2-buffer.")

/-- `BasePYR_Buffer.unpack`: header parsing and region slicing followed by
the check that the PMK region size is a multiple of 32. -/
def unpackPYR (buf : Bytes) : Except PyErr PYRBuf :=
  (pyrSplitBuf buf).bind fun h =>
    if h.pmkbuffer.length % 32 ≠ 0 then
      .error (.storageError "pmkbuffer seems truncated")
    else .ok h

/-- Fuel-driven helper for `grouper32`; the fuel only needs to be at least
the length of the list. -/
def grouperAux : Nat → Bytes → List Bytes
  | 0, _ => []
  | _, [] => []
  | fuel + 1, b :: tl => ((b :: tl).take 32) :: grouperAux fuel ((b :: tl).drop 32)

/-- Modelled from the spec: `util.grouper`, which is not among the source
files, cuts the PMK region into successive 32-byte groups. -/
def grouper32 (b : Bytes) : List Bytes := grouperAux b.length b

/-- `BasePYR_Buffer._unpack`: decompress and split the password region,
assert the password count, verify the digest (over the compressed password
bytes for PYR2, over the NUL-stripped concatenation of the decompressed
passwords for PYRT), pair passwords with 32-byte PMK groups and assert the
result count. -/
def pyrUnpackResults (C : Codec) (h : PYRBuf) :
    Except PyErr (List (Bytes × Bytes)) :=
  let pwlist := splitOnByte (pyrDelim h.magic) (C.decompress h.pwbuffer)
  if (pwlist.length : Int) ≠ h.numElems then .error .assertionError
  else
    let digestInput := h.essid ++ h.pmkbuffer ++
      (if h.magic = pyr2Magic then h.pwbuffer else pwlist.flatten)
    if C.md5 digestInput ≠ h.digest then .error (.digestError "Digest check failed")
    else
      let results := pwlist.zip (grouper32 h.pmkbuffer)
      if (results.length : Int) ≠ h.numElems then .error .assertionError
      else .ok results

/-- Full decoding of a result buffer: `unpack` followed by `_unpack`. -/
def pyrDecode (C : Codec) (buf : Bytes) : Except PyErr (List (Bytes × Bytes)) :=
  (unpackPYR buf).bind (pyrUnpackResults C)

theorem pyrUnpackResults_ok_length (C : Codec) (h : PYRBuf)
    (res : List (Bytes × Bytes)) (hd : pyrUnpackResults C h = .ok res) :
    (res.length : Int) = h.numElems := by
  simp only [pyrUnpackResults] at hd
  by_cases h1 : ((splitOnByte (pyrDelim h.magic)
      (C.decompress h.pwbuffer)).length : Int) ≠ h.numElems
  · rw [if_pos h1] at hd
    exact absurd hd (by simp)
  · rw [if_neg h1] at hd
    by_cases h2 : C.md5 (h.essid ++ h.pmkbuffer ++
        (if h.magic = pyr2Magic then h.pwbuffer
         else (splitOnByte (pyrDelim h.magic)
           (C.decompress h.pwbuffer)).flatten)) ≠ h.digest
    · rw [if_pos h2] at hd
      exact absurd hd (by simp)
    · rw [if_neg h2] at hd
      by_cases h3 : (((splitOnByte (pyrDelim h.magic)
          (C.decompress h.pwbuffer)).zip (grouper32 h.pmkbuffer)).length : Int)
          ≠ h.numElems
      · rw [if_pos h3] at hd
        exact absurd hd (by simp)
      · rw [if_neg h3] at hd
        rw [← Except.ok.inj hd]
        exact not_ne_iff.mp h3

/-- C6 (amended): decoding fails with `StorageError("pmkbuffer seems
truncated")` whenever the sliced PMK region's byte length is not a multiple
of 32; once the regions are sliced, a PYR2 decode whose password count
matches the header fails with a `DigestError` whenever the embedded digest
differs from MD5(essid ++ pmk bytes ++ compressed password bytes); a legacy
PYRT decode whose count matches fails with a `DigestError` whenever the
embedded digest differs from MD5(essid ++ pmk bytes ++ concatenation of the
decompressed passwords with the NUL delimiters removed); and on success the
number of decoded pairs equals the header count. -/
theorem C6_pyr_decode :
    (∀ buf h, pyrSplitBuf buf = .ok h → h.pmkbuffer.length % 32 ≠ 0 →
      unpackPYR buf = .error (.storageError "pmkbuffer seems truncated")) ∧
    (∀ (C : Codec) (buf : Bytes) (h : PYRBuf), unpackPYR buf = .ok h →
      h.magic = pyr2Magic →
      ((splitOnByte (pyrDelim h.magic) (C.decompress h.pwbuffer)).length : Int)
        = h.numElems →
      C.md5 (h.essid ++ h.pmkbuffer ++ h.pwbuffer) ≠ h.digest →
      pyrDecode C buf = .error (.digestError "Digest check failed")) ∧
    (∀ (C : Codec) (buf : Bytes) (h : PYRBuf), unpackPYR buf = .ok h →
      h.magic ≠ pyr2Magic →
      ((splitOnByte (pyrDelim h.magic) (C.decompress h.pwbuffer)).length : Int)
        = h.numElems →
      C.md5 (h.essid ++ h.pmkbuffer ++
        (splitOnByte (pyrDelim h.magic) (C.decompress h.pwbuffer)).flatten)
        ≠ h.digest →
      pyrDecode C buf = .error (.digestError "Digest check failed")) ∧
    (∀ (C : Codec) (buf : Bytes) (res : List (Bytes × Bytes)) (h : PYRBuf),
      pyrDecode C buf = .ok res → unpackPYR buf = .ok h →
      (res.length : Int) = h.numElems) := by
  refine ⟨?_, ?_, ?_, ?_⟩
  · intro buf h hok hmod
    unfold unpackPYR
    rw [hok]
    simp only [Except.bind]
    rw [if_pos hmod]
  · intro C buf h hok hmag hcount hdig
    unfold pyrDecode
    rw [hok]
    simp only [Except.bind]
    unfold pyrUnpackResults
    rw [if_neg (by simp [hcount]), if_pos (by simpa [hmag] using hdig)]
  · intro C buf h hok hmag hcount hdig
    unfold pyrDecode
    rw [hok]
    simp only [Except.bind]
    unfold pyrUnpackResults
    rw [if_neg (by simp [hcount]), if_pos (by simpa [hmag] using hdig)]
  · intro C buf res h hdec hok
    unfold pyrDecode at hdec
    rw [hok] at hdec
    simp only [Except.bind] at hdec
    exact pyrUnpackResults_ok_length C h res hdec

/-- A PYR2 buffer whose PMK region is 5 bytes (not a multiple of 32). -/
def c6w1buf : Bytes :=
  [80, 89, 82, 50, 1, 0, 101, 1, 0, 0, 0] ++ List.replicate 16 0 ++
    List.replicate 5 0

/-- The fields `pyrSplitBuf` extracts from `c6w1buf`. -/
def c6w1parsed : PYRBuf :=
  ⟨[80, 89, 82, 50], [101], 1, List.replicate 16 0, List.replicate 5 0, []⟩

/-- A well-formed PYR2 buffer whose digest does not match. -/
def c6w2buf : Bytes :=
  [80, 89, 82, 50, 1, 0, 101, 1, 0, 0, 0] ++ List.replicate 16 7 ++
    List.replicate 32 0 ++ [97, 98]

/-- The fields `pyrSplitBuf` extracts from `c6w2buf`. -/
def c6w2parsed : PYRBuf :=
  ⟨[80, 89, 82, 50], [101], 1, List.replicate 16 7, List.replicate 32 0,
    [97, 98]⟩

/-- A well-formed PYRT buffer whose digest does not match. -/
def c6w3buf : Bytes :=
  [80, 89, 82, 84, 1, 0, 101, 2, 0, 0, 0] ++ List.replicate 16 9 ++
    List.replicate 64 0 ++ [97, 98, 0, 99, 100]

/-- The fields `pyrSplitBuf` extracts from `c6w3buf`. -/
def c6w3parsed : PYRBuf :=
  ⟨[80, 89, 82, 84], [101], 2, List.replicate 16 9, List.replicate 64 0,
    [97, 98, 0, 99, 100]⟩

/-- A PYR2 buffer that decodes successfully under `testCodec`. -/
def c6w4buf : Bytes :=
  [80, 89, 82, 50, 1, 0, 101, 1, 0, 0, 0] ++ (35 :: List.replicate 15 0) ++
    List.replicate 32 0 ++ [97, 98]

/-- The fields `pyrSplitBuf` extracts from `c6w4buf`. -/
def c6w4parsed : PYRBuf :=
  ⟨[80, 89, 82, 50], [101], 1, 35 :: List.replicate 15 0,
    List.replicate 32 0, [97, 98]⟩

/-- Witness for C6 discharging each conjunct at a concrete buffer. -/
theorem C6_pyr_decode_witness :
    unpackPYR c6w1buf = .error (.storageError "pmkbuffer seems truncated") ∧
    pyrDecode testCodec c6w2buf = .error (.digestError "Digest check failed") ∧
    pyrDecode testCodec c6w3buf = .error (.digestError "Digest check failed") ∧
    ((([([97, 98], List.replicate 32 0)] : List (Bytes × Bytes)).length : Int)
      = c6w4parsed.numElems) :=
  ⟨C6_pyr_decode.1 c6w1buf c6w1parsed (by rfl) (by decide),
   C6_pyr_decode.2.1 testCodec c6w2buf c6w2parsed (by rfl) (by rfl)
     (by decide) (by decide),
   C6_pyr_decode.2.2.1 testCodec c6w3buf c6w3parsed (by rfl) (by decide)
     (by decide) (by decide),
   C6_pyr_decode.2.2.2 testCodec c6w4buf [([97, 98], List.replicate 32 0)]
     c6w4parsed (by rfl) (by rfl)⟩

/-- A legacy PYRT buffer holding the two passwords `"ab"` and `"cd"`, whose
embedded digest equals MD5 over the NUL-stripped password concatenation as
the code computes it. -/
def c6buf : Bytes :=
  [80, 89, 82, 84, 1, 0, 101, 2, 0, 0, 0] ++ (69 :: List.replicate 15 0) ++
    List.replicate 64 0 ++ [97, 98, 0, 99, 100]

/-- The fields `pyrSplitBuf` extracts from `c6buf`. -/
def c6parsed : PYRBuf :=
  ⟨[80, 89, 82, 84], [101], 2, 69 :: List.replicate 15 0,
    List.replicate 64 0, [97, 98, 0, 99, 100]⟩

/-- C6 as stated is false for the legacy PYRT variant: `c6buf` decodes
successfully although its embedded digest differs from the MD5 over the
decompressed password bytes (which still contain the NUL delimiter) — the
code digests the concatenation with the delimiters removed instead. -/
theorem C6_counterexample :
    pyrSplitBuf c6buf = .ok c6parsed ∧
    pyrDecode testCodec c6buf =
      .ok [([97, 98], List.replicate 32 0), ([99, 100], List.replicate 32 0)] ∧
    testCodec.md5 (c6parsed.essid ++ c6parsed.pmkbuffer ++
      testCodec.decompress c6parsed.pwbuffer) ≠ c6parsed.digest :=
  ⟨by rfl, by rfl, by decide⟩

/-- C5 as stated is false: the valid 8-byte password `"aaaa\nbbb"` (which
contains an interior newline) round-trips to the two-element collection
`["aaaa", "bbb"]`, which is not equal as a set to the original singleton. -/
theorem C5_counterexample :
    PAW2_unpack testCodec
        (PAW2_pack testCodec [[97, 97, 97, 97, 10, 98, 98, 98]]).2 =
      .ok ([[97, 97, 97, 97], [98, 98, 98]],
           hexdigest (testCodec.md5 [97, 97, 97, 97, 10, 98, 98, 98])) ∧
    ([97, 97, 97, 97] : Bytes) ∈ [[97, 97, 97, 97], [98, 98, 98]] ∧
    ([97, 97, 97, 97] : Bytes) ∉ [[97, 97, 97, 97, 10, 98, 98, 98]] :=
  ⟨rfl, by decide, by decide⟩

/-- True on the line-terminator bytes CR and LF. -/
def isLineTerm (b : Nat) : Bool := b = 13 || b = 10

/-- Python `passwd.strip("\r\n")`: removes leading and trailing CR/LF
bytes. -/
def pyStripCRLF (s : Bytes) : Bytes :=
  ((s.dropWhile isLineTerm).reverse.dropWhile isLineTerm).reverse

/-- The trimming operation as the claim words it, for comparison with the
source: removal of trailing line terminators only. -/
def spec_trimTrailing (s : Bytes) : Bytes :=
  (s.reverse.dropWhile isLineTerm).reverse

/-- Python `set.add` on a list kept duplicate-free. -/
def setAdd (x : Bytes) (l : List Bytes) : List Bytes :=
  if x ∈ l then l else l ++ [x]

/-- State of `FSPasswordStore` (with the default `unique_check`): the
in-memory buckets keyed by H1 and the flushed on-disk buckets, each tagged
with its H1 and recorded under its PAW2 key. -/
structure PwStore where
  pwbuffer : List (Nat × List Bytes)
  disk : List (Bytes × (Nat × List Bytes))
deriving DecidableEq, Repr

/-- The unique-check diff in `_flush_bucket`: remove from the bucket every
password already present in an on-disk bucket sharing its H1. -/
def bucketDiff (bucket : List Bytes) (disk : List (Bytes × (Nat × List Bytes)))
    (h1 : Nat) : List Bytes :=
  disk.foldl (fun b e => if e.2.1 = h1 then b.filter (fun x => x ∉ e.2.2) else b)
    bucket

/-- `FSPasswordStore._flush_bucket`: skip empty buckets, apply the
unique-check diff, then pack the remainder as a PAW2 file stored under its
own key. -/
def flushBucket (C : Codec) (h1 : Nat) (bucket : List Bytes) (st : PwStore) :
    PwStore :=
  if bucket = [] then st
  else
    let bucket2 := bucketDiff bucket st.disk h1
    if bucket2 = [] then st
    else
      { st with disk := st.disk ++ [((PAW2_pack C bucket2).1, (h1, bucket2))] }

/-- `PasswordStore.store_password`: strip CR/LF from both ends, silently
drop the password when the stripped length is outside 8..63, otherwise add
it to the H1 bucket and flush that bucket once it reaches the configured
workunit size. -/
def storePassword (C : Codec) (hashF : Bytes → Nat) (mws : Nat) (st : PwStore)
    (passwd : Bytes) : PwStore :=
  let p := pyStripCRLF passwd
  if p.length < 8 ∨ p.length > 63 then st
  else
    let h1 := hashF p % 256
    let bucket := (assocFind h1 st.pwbuffer).getD []
    let bucket2 := setAdd p bucket
    let buf1 := assocSet h1 bucket2 st.pwbuffer
    if bucket2.length ≥ mws then
      let st2 := flushBucket C h1 bucket2 { st with pwbuffer := buf1 }
      { st2 with pwbuffer := assocSet h1 [] st2.pwbuffer }
    else { st with pwbuffer := buf1 }

/-- C7 as stated is false: the 64-byte input consisting of a leading
newline followed by 63 'a's has no trailing line terminators, so by the
claim it should be ignored (trailing-trimmed length 64 > 63); the code
strips the leading newline as well and stores the remaining 63 'a's. -/
theorem C7_counterexample :
    spec_trimTrailing (10 :: List.replicate 63 97) =
      10 :: List.replicate 63 97 ∧
    (10 :: List.replicate 63 97 : Bytes).length = 64 ∧
    storePassword testCodec (fun _ => 0) 20000 ⟨[], []⟩
        (10 :: List.replicate 63 97) =
      ⟨[(0, [List.replicate 63 97])], []⟩ :=
  ⟨by decide, by decide, by decide⟩

/-- C7 (amended): `store_password` trims leading and trailing line
terminators and then silently ignores the password — leaving the buffer and
the on-disk store unchanged — whenever the trimmed length is below 8 or
above 63; a terminator-free 63-character password stored into an empty
store is buffered, while a 7-character and a 64-character password are both
no-ops. -/
theorem C7_store_password :
    (∀ (C : Codec) (hashF : Bytes → Nat) (mws : Nat) (st : PwStore)
      (passwd : Bytes),
      (pyStripCRLF passwd).length < 8 ∨ (pyStripCRLF passwd).length > 63 →
      storePassword C hashF mws st passwd = st) ∧
    (∀ (C : Codec) (hashF : Bytes → Nat) (mws : Nat) (p : Bytes),
      2 ≤ mws → p.length = 63 → pyStripCRLF p = p →
      storePassword C hashF mws ⟨[], []⟩ p =
        ⟨[(hashF p % 256, [p])], []⟩) ∧
    (∀ (C : Codec) (hashF : Bytes → Nat) (mws : Nat) (st : PwStore),
      storePassword C hashF mws st (List.replicate 7 49) = st) ∧
    (∀ (C : Codec) (hashF : Bytes → Nat) (mws : Nat) (st : PwStore),
      storePassword C hashF mws st (List.replicate 64 97) = st) := by
  have hshort : ∀ (C : Codec) (hashF : Bytes → Nat) (mws : Nat) (st : PwStore)
      (passwd : Bytes),
      (pyStripCRLF passwd).length < 8 ∨ (pyStripCRLF passwd).length > 63 →
      storePassword C hashF mws st passwd = st := by
    intro C hashF mws st passwd h
    simp only [storePassword]
    rw [if_pos h]
  refine ⟨hshort, ?_, ?_, ?_⟩
  · intro C hashF mws p hmws hlen hstrip
    simp only [storePassword, hstrip]
    rw [if_neg (by omega)]
    simp only [assocFind, Option.getD_none, setAdd, List.not_mem_nil,
      if_neg (by simp : ¬(p ∈ ([] : List Bytes))), List.nil_append]
    rw [if_neg (by simp; omega)]
    simp [assocSet]
  · intro C hashF mws st
    exact hshort C hashF mws st _ (by decide)
  · intro C hashF mws st
    exact hshort C hashF mws st _ (by decide)

/-- Witness for C7 discharging each conjunct at concrete inputs. -/
theorem C7_store_password_witness :
    storePassword testCodec (fun _ => 3) 20000 ⟨[], []⟩ [97, 98] = ⟨[], []⟩ ∧
    storePassword testCodec (fun _ => 3) 20000 ⟨[], []⟩
        (List.replicate 63 98) = ⟨[(3, [List.replicate 63 98])], []⟩ ∧
    storePassword testCodec (fun _ => 3) 20000 ⟨[], []⟩
        (List.replicate 7 49) = ⟨[], []⟩ ∧
    storePassword testCodec (fun _ => 3) 20000 ⟨[], []⟩
        (List.replicate 64 97) = ⟨[], []⟩ :=
  ⟨C7_store_password.1 testCodec (fun _ => 3) 20000 ⟨[], []⟩ [97, 98]
      (by decide),
   by
     have := C7_store_password.2.1 testCodec (fun _ => 3) 20000
       (List.replicate 63 98) (by omega) (by simp) (by decide)
     simpa using this,
   C7_store_password.2.2.1 testCodec (fun _ => 3) 20000 ⟨[], []⟩,
   C7_store_password.2.2.2 testCodec (fun _ => 3) 20000 ⟨[], []⟩⟩

/-- State of `FSEssidStore`: the `essids` dict mapping each stored ESSID to
its directory and its key-to-filename dict, plus the underlying files. -/
structure FSEssidStoreS where
  essids : List (Bytes × (String × List (String × String)))
  files : List (String × Bytes)

/-- The `try`-block of `FSEssidStore.__getitem__`: the nested dict lookup
`self.essids[essid][1][key]`, each failing lookup raising `KeyError`. -/
def fsLookupFname (st : FSEssidStoreS) (essid : Bytes) (key : String) :
    Except PyErr String :=
  match assocFind essid st.essids with
  | none => .error (.keyErrorBytes essid)
  | some (_, keys) =>
    match assocFind key keys with
    | none => .error (.keyErrorStr key)
    | some fname => .ok fname

/-- `FSEssidStore.__getitem__`: the filename lookup guarded by a handler
that catches only `IndexError`, then the file read, the header dispatch,
`unpack` and the ESSID consistency check. -/
def fsGetitem (st : FSEssidStoreS) (essid : Bytes) (key : String) :
    Except PyErr PYRBuf :=
  match fsLookupFname st essid key with
  | .error (.indexError _) => .error (.indexError "No result for ESSID:Key")
  | .error e => .error e
  | .ok fname =>
    match assocFind fname st.files with
    | none => .error (.ioError "could not open result-file")
    | some buf =>
      if buf.take 4 = pyr2Magic ∨ buf.take 4 = pyrtMagic then
        match unpackPYR buf with
        | .error e => .error e
        | .ok r =>
          if r.essid ≠ essid then
            .error (.storageError "Invalid ESSID in result-collection")
          else .ok r
      else .error (.storageError "Header unknown")

/-- C10: indexing the filesystem ESSID store with a stored ESSID but an
unknown key raises `KeyError` from the internal dict lookup — the handler
that catches `IndexError` never fires, and no empty iterable (nor any
success value) is returned. -/
theorem C10_fs_getitem_missing_key (st : FSEssidStoreS)
    (essid : Bytes) (root : String) (keys : List (String × String))
    (key : String) (hessid : assocFind essid st.essids = some (root, keys))
    (hkey : assocFind key keys = none) :
    fsGetitem st essid key = .error (.keyErrorStr key) := by
  unfold fsGetitem fsLookupFname
  rw [hessid]
  simp [hkey]

/-- Witness for C10 at a concrete one-ESSID store with no stored keys. -/
theorem C10_fs_getitem_missing_key_witness :
    assocFind [101] (FSEssidStoreS.mk [([101], ("d", []))] []).essids =
      some ("d", []) ∧
    assocFind "k" ([] : List (String × String)) = none ∧
    fsGetitem (FSEssidStoreS.mk [([101], ("d", []))] []) [101] "k" =
      .error (.keyErrorStr "k") :=
  ⟨by decide, by decide,
   C10_fs_getitem_missing_key (FSEssidStoreS.mk [([101], ("d", []))] [])
     [101] "d" [] "k" (by decide) (by decide)⟩

/-- Python lexicographic `<` on byte strings. -/
def pyStrLt : Bytes → Bytes → Bool
  | [], [] => false
  | [], _ :: _ => true
  | _ :: _, [] => false
  | x :: xs, y :: ys => if x < y then true else if y < x then false else pyStrLt xs ys

theorem pyStrLt_asymm : ∀ x y : Bytes, pyStrLt x y = true → pyStrLt y x = false
  | [], [] => by simp [pyStrLt]
  | [], _ :: _ => by simp [pyStrLt]
  | _ :: _, [] => by simp [pyStrLt]
  | x :: xs, y :: ys => by
    simp only [pyStrLt]
    intro h
    by_cases h1 : x < y
    · have h2 : ¬y < x := by omega
      simp [h1, h2]
    · by_cases h2 : y < x
      · rw [if_neg h1, if_pos h2] at h
        exact absurd h (by simp)
      · rw [if_neg h1, if_neg h2] at h
        rw [if_neg h2, if_neg h1]
        exact pyStrLt_asymm xs ys h

theorem pyStrLt_eq_of_not : ∀ x y : Bytes,
    pyStrLt x y = false → pyStrLt y x = false → x = y
  | [], [] => by simp
  | [], _ :: _ => by simp [pyStrLt]
  | _ :: _, [] => by simp [pyStrLt]
  | x :: xs, y :: ys => by
    simp only [pyStrLt]
    intro h1 h2
    by_cases hxy : x < y
    · rw [if_pos hxy] at h1
      exact absurd h1 (by simp)
    · by_cases hyx : y < x
      · rw [if_pos hyx] at h2
        exact absurd h2 (by simp)
      · have hx : x = y := by omega
        subst hx
        rw [if_neg hxy, if_neg hyx] at h1
        rw [if_neg hyx, if_neg hxy] at h2
        rw [pyStrLt_eq_of_not xs ys h1 h2]

/-- Python `sorted([x, y])` on two byte strings, as the ordered pair. -/
def sorted2 (x y : Bytes) : Bytes × Bytes :=
  if pyStrLt y x then (y, x) else (x, y)

/-- The byte-wise (lexicographically) smaller of two byte strings. -/
def lexMin (x y : Bytes) : Bytes := if pyStrLt y x then y else x

/-- The byte-wise (lexicographically) larger of two byte strings. -/
def lexMax (x y : Bytes) : Bytes := if pyStrLt y x then x else y

theorem sorted2_eq (x y : Bytes) : sorted2 x y = (lexMin x y, lexMax x y) := by
  unfold sorted2 lexMin lexMax
  by_cases h : pyStrLt y x <;> simp [h]

theorem sorted2_comm (x y : Bytes) : sorted2 x y = sorted2 y x := by
  by_cases h1 : pyStrLt y x
  · have h2 : pyStrLt x y = false := pyStrLt_asymm y x h1
    simp [sorted2, h1, h2]
  · by_cases h2 : pyStrLt x y
    · simp [sorted2, h1, h2]
    · have hx := pyStrLt_eq_of_not x y (by simpa using h2) (by simpa using h1)
      subst hx
      rfl

/-- The literal `"Pairwise key expansion\x00"`. -/
def pkeLabel : Bytes :=
  [80, 97, 105, 114, 119, 105, 115, 101, 32, 107, 101, 121, 32, 101, 120,
   112, 97, 110, 115, 105, 111, 110, 0]

/-- `EAPOLAuthentication.getpke`: the label, the sorted pair of raw MACs,
the sorted pair of nonces, and a final NUL. -/
def getpke (apMac staMac snonce anonce : Bytes) : Bytes :=
  pkeLabel ++ (sorted2 apMac staMac).1 ++ (sorted2 apMac staMac).2 ++
    (sorted2 snonce anonce).1 ++ (sorted2 snonce anonce).2 ++ [0]

/-- C9: the PKE byte string is invariant under simultaneously swapping the
AP MAC with the STA MAC and the SNonce with the ANonce, and always equals
the literal `"Pairwise key expansion\x00"` followed by the byte-wise
smaller then larger of the two raw MACs, the byte-wise smaller then larger
of the two nonces, and a final NUL byte. -/
theorem C9_pke (apMac staMac snonce anonce : Bytes) :
    getpke apMac staMac snonce anonce = getpke staMac apMac anonce snonce ∧
    getpke apMac staMac snonce anonce =
      pkeLabel ++ lexMin apMac staMac ++ lexMax apMac staMac ++
        lexMin snonce anonce ++ lexMax snonce anonce ++ [0] := by
  constructor
  · unfold getpke
    rw [sorted2_comm apMac staMac, sorted2_comm snonce anonce]
  · unfold getpke
    rw [sorted2_eq apMac staMac, sorted2_eq snonce anonce]

/-- The two EAPOL key schemes. -/
inductive KeyScheme where
  | hmacMD5RC4
  | hmacSHA1AES
deriving DecidableEq, Repr

/-- The fields of an EAPOL key packet relevant to the Station bookkeeping.
`keymicFrame` carries the revirginized MIC-verification body that
`addResponseFrame` derives from the packet (the scapy copy/zero/truncate
serialization is external library behaviour); `flagMD5`/`flagSHA1` are the
two key-scheme bits of KeyInfo and `defaultScheme` is the packet class's
own default. -/
structure KeyPckt where
  replayCounter : Int
  nonce : Bytes
  wpaKeyMIC : Bytes
  keymicFrame : Bytes
  flagMD5 : Bool
  flagSHA1 : Bool
  defaultScheme : KeyScheme
deriving DecidableEq, Repr

/-- Key-scheme selection for Frame 2: prefer the scheme bit actually set in
KeyInfo, falling back to the frame type's default. -/
def frameVersion (p : KeyPckt) : KeyScheme :=
  if p.flagMD5 then .hmacMD5RC4
  else if p.flagSHA1 then .hmacSHA1AES
  else p.defaultScheme

/-- The dedup key of a response frame: `(version, SNonce, MIC body, MIC)`. -/
abbrev RespKey := KeyScheme × Bytes × Bytes × Bytes

/-- The three per-ReplayCounter frame slots of a Station: Frame 1 and
Frame 3 keyed by ANonce, Frame 2 keyed by its response tuple; values are
`(packet index, packet)`. -/
abbrev FrameTriple :=
  List (Bytes × (Nat × KeyPckt)) × List (RespKey × (Nat × KeyPckt)) ×
    List (Bytes × (Nat × KeyPckt))

/-- A Station's accumulated EAPOL key frames, indexed by ReplayCounter.
The parent AccessPoint back-reference and the MAC identities are not needed
by the reconstruction bookkeeping and are omitted. -/
structure StationS where
  frames : List (Int × FrameTriple)
deriving Repr

/-- A reconstructed authentication (`EAPOLAuthentication`) without the
station back-reference and raw frame snapshots. -/
structure AuthS where
  version : KeyScheme
  snonce : Bytes
  anonce : Bytes
  keymic : Bytes
  keymicFrame : Bytes
  quality : Nat
  spread : Nat
deriving DecidableEq, Repr

/-- Absolute distance of two packet indices. -/
def natDist (a b : Nat) : Nat := ((a : Int) - b).natAbs

/-- The Frame 3 combinations of `_buildAuthentications` for one response
frame: quality 0 when the ANonce matches a Frame 1, else quality 1. -/
def buildAuthsF3 (f1 : List (Bytes × (Nat × KeyPckt))) (v : KeyScheme)
    (sn kf mic : Bytes) (i2 : Nat) (f3 : List (Bytes × (Nat × KeyPckt))) :
    List AuthS :=
  f3.map fun e3 =>
    match assocFind e3.1 f1 with
    | some p1 => ⟨v, sn, e3.1, mic, kf, 0, max (natDist e3.2.1 i2) (natDist p1.1 i2)⟩
    | none => ⟨v, sn, e3.1, mic, kf, 1, natDist e3.2.1 i2⟩

/-- The Frame 1-only combinations of `_buildAuthentications` for one
response frame: quality 2, skipping ANonces that appear in a Frame 3. -/
def buildAuthsF1 (f1 f3 : List (Bytes × (Nat × KeyPckt))) (v : KeyScheme)
    (sn kf mic : Bytes) (i2 : Nat) : List AuthS :=
  f1.filterMap fun e1 =>
    if (assocFind e1.1 f3).isSome then none
    else some ⟨v, sn, e1.1, mic, kf, 2, natDist e1.2.1 i2⟩

/-- `Station._buildAuthentications`. -/
def buildAuths (f1 : List (Bytes × (Nat × KeyPckt)))
    (f2 : List (RespKey × (Nat × KeyPckt)))
    (f3 : List (Bytes × (Nat × KeyPckt))) : List AuthS :=
  (f2.map fun e2 =>
    buildAuthsF3 f1 e2.1.1 e2.1.2.1 e2.1.2.2.1 e2.1.2.2.2 e2.2.1 f3 ++
      buildAuthsF1 f1 f3 e2.1.1 e2.1.2.1 e2.1.2.2.1 e2.1.2.2.2 e2.2.1).flatten

/-- The empty frame-slot triple. -/
def emptyTriple : FrameTriple := ([], [], [])

/-- `self.frames.setdefault(rc, ({}, {}, {}))`. -/
def framesSetdefault (st : StationS) (rc : Int) : StationS :=
  if (assocFind rc st.frames).isSome then st
  else { frames := st.frames ++ [(rc, emptyTriple)] }

/-- The triple stored for a ReplayCounter (after a `setdefault`). -/
def framesGet (st : StationS) (rc : Int) : FrameTriple :=
  (assocFind rc st.frames).getD emptyTriple

/-- `Station.addChallengeFrame`. -/
def addChallengeFrame (st : StationS) (idx : Nat) (p : KeyPckt) :
    Option (List AuthS) × StationS :=
  let st1 := framesSetdefault st p.replayCounter
  let t := framesGet st1 p.replayCounter
  if (assocFind p.nonce t.1).isSome then (none, st1)
  else
    (some (buildAuths [(p.nonce, (idx, p))] t.2.1 t.2.2),
     { frames := assocSet p.replayCounter
         (t.1 ++ [(p.nonce, (idx, p))], t.2.1, t.2.2) st1.frames })

/-- `Station.addResponseFrame`. -/
def addResponseFrame (st : StationS) (idx : Nat) (p : KeyPckt) :
    Option (List AuthS) × StationS :=
  let st1 := framesSetdefault st p.replayCounter
  let t := framesGet st1 p.replayCounter
  let resp : RespKey := (frameVersion p, p.nonce, p.keymicFrame, p.wpaKeyMIC)
  if (assocFind resp t.2.1).isSome then (none, st1)
  else
    (some (buildAuths t.1 [(resp, (idx, p))] t.2.2),
     { frames := assocSet p.replayCounter
         (t.1, t.2.1 ++ [(resp, (idx, p))], t.2.2) st1.frames })

/-- `Station.addConfirmationFrame`: groups under `ReplayCounter - 1`. -/
def addConfirmationFrame (st : StationS) (idx : Nat) (p : KeyPckt) :
    Option (List AuthS) × StationS :=
  let rc := p.replayCounter - 1
  let st1 := framesSetdefault st rc
  let t := framesGet st1 rc
  if (assocFind p.nonce t.2.2).isSome then (none, st1)
  else
    (some (buildAuths t.1 t.2.1 [(p.nonce, (idx, p))]),
     { frames := assocSet rc
         (t.1, t.2.1, t.2.2 ++ [(p.nonce, (idx, p))]) st1.frames })

/-- The `(quality, spread)` ascending comparison used to sort
authentications (best first). -/
def authLE (a b : AuthS) : Bool :=
  a.quality < b.quality || (a.quality = b.quality && a.spread ≤ b.spread)

/-- `Station.getAuthentications`: rebuild from every ReplayCounter group
and sort best-first. -/
def getAuthentications (st : StationS) : List AuthS :=
  ((st.frames.map fun e => buildAuths e.2.1 e.2.2.1 e.2.2.2).flatten).mergeSort
    authLE

/-- C8 (amended): feeding one station a Frame 1 carrying ANonce A, a
Frame 2 carrying SNonce S and MIC M, and a Frame 3 carrying ANonce A, with
ReplayCounters r, r and r+1, reconstructs exactly one Authentication; it
has quality 0 and its spread equals the larger of the two absolute
distances from Frame 2's packet index to Frame 1's and to Frame 3's (the
Frame 1 to Frame 3 gap is not considered). -/
theorem C8_handshake_reconstruction (r : Int) (i1 i2 i3 : Nat)
    (A S M B mic1 kf1 mic3 kf3 : Bytes) (a1 b1 a2 b2 a3 b3 : Bool)
    (d1 d2 d3 : KeyScheme) :
    getAuthentications
      ((addConfirmationFrame
        ((addResponseFrame
          ((addChallengeFrame ⟨[]⟩ i1 ⟨r, A, mic1, kf1, a1, b1, d1⟩).2)
          i2 ⟨r, S, M, B, a2, b2, d2⟩).2)
        i3 ⟨r + 1, A, mic3, kf3, a3, b3, d3⟩).2) =
      [⟨frameVersion ⟨r, S, M, B, a2, b2, d2⟩, S, A, M, B, 0,
        max (natDist i3 i2) (natDist i1 i2)⟩] := by
  have hrc : r + 1 - 1 = r := by ring
  have h1 : (addChallengeFrame ⟨[]⟩ i1 ⟨r, A, mic1, kf1, a1, b1, d1⟩).2 =
      ⟨[(r, ([(A, (i1, ⟨r, A, mic1, kf1, a1, b1, d1⟩))], [], []))]⟩ := by
    simp [addChallengeFrame, framesSetdefault, framesGet, emptyTriple,
      assocFind, assocSet]
  rw [h1]
  have h2 : (addResponseFrame
      ⟨[(r, ([(A, (i1, ⟨r, A, mic1, kf1, a1, b1, d1⟩))], [], []))]⟩
      i2 ⟨r, S, M, B, a2, b2, d2⟩).2 =
      ⟨[(r, ([(A, (i1, ⟨r, A, mic1, kf1, a1, b1, d1⟩))],
             [((frameVersion ⟨r, S, M, B, a2, b2, d2⟩, S, B, M),
               (i2, ⟨r, S, M, B, a2, b2, d2⟩))], []))]⟩ := by
    simp [addResponseFrame, framesSetdefault, framesGet, assocFind, assocSet]
  rw [h2]
  have h3 : (addConfirmationFrame
      ⟨[(r, ([(A, (i1, ⟨r, A, mic1, kf1, a1, b1, d1⟩))],
             [((frameVersion ⟨r, S, M, B, a2, b2, d2⟩, S, B, M),
               (i2, ⟨r, S, M, B, a2, b2, d2⟩))], []))]⟩
      i3 ⟨r + 1, A, mic3, kf3, a3, b3, d3⟩).2 =
      ⟨[(r, ([(A, (i1, ⟨r, A, mic1, kf1, a1, b1, d1⟩))],
             [((frameVersion ⟨r, S, M, B, a2, b2, d2⟩, S, B, M),
               (i2, ⟨r, S, M, B, a2, b2, d2⟩))],
             [(A, (i3, ⟨r + 1, A, mic3, kf3, a3, b3, d3⟩))]))]⟩ := by
    simp [addConfirmationFrame, framesSetdefault, framesGet, assocFind,
      assocSet, hrc]
  rw [h3]
  simp [getAuthentications, buildAuths, buildAuthsF3, buildAuthsF1,
    assocFind, List.mergeSort_singleton]

/-- The spread as the claim words it: the maximum absolute distance between
the packet indices of the participating frames, stated for comparison with
the source's formula. -/
def spec_maxIndexGap (i1 i2 i3 : Nat) : Nat :=
  max (natDist i1 i2) (max (natDist i2 i3) (natDist i1 i3))

/-- C8 as stated is false: with Frame 1, Frame 2 and Frame 3 at packet
indices 1, 5 and 6 the reconstructed authentication has spread 4
(`max (abs (6-5)) (abs (1-5))`), while the maximum absolute distance
between participating frame indices is 5 (between Frame 1 and Frame 3). -/
theorem C8_counterexample :
    getAuthentications
      ((addConfirmationFrame
        ((addResponseFrame
          ((addChallengeFrame ⟨[]⟩ 1
            ⟨0, [1], [9], [9], false, false, .hmacMD5RC4⟩).2)
          5 ⟨0, [2], [3], [4], false, false, .hmacSHA1AES⟩).2)
        6 ⟨1, [1], [9], [9], false, false, .hmacSHA1AES⟩).2) =
      [⟨.hmacSHA1AES, [2], [1], [3], [4], 0, 4⟩] ∧
    spec_maxIndexGap 1 5 6 = 5 ∧ (4 : Nat) ≠ 5 := by
  refine ⟨?_, by decide, by decide⟩
  have h1 : (addChallengeFrame ⟨[]⟩ 1
      ⟨0, [1], [9], [9], false, false, .hmacMD5RC4⟩).2 =
      ⟨[(0, ([([1], (1, ⟨0, [1], [9], [9], false, false, .hmacMD5RC4⟩))],
             [], []))]⟩ := by
    simp [addChallengeFrame, framesSetdefault, framesGet, emptyTriple,
      assocFind, assocSet]
  rw [h1]
  have h2 : (addResponseFrame
      ⟨[(0, ([([1], (1, ⟨0, [1], [9], [9], false, false, .hmacMD5RC4⟩))],
             [], []))]⟩
      5 ⟨0, [2], [3], [4], false, false, .hmacSHA1AES⟩).2 =
      ⟨[(0, ([([1], (1, ⟨0, [1], [9], [9], false, false, .hmacMD5RC4⟩))],
             [((.hmacSHA1AES, [2], [4], [3]),
               (5, ⟨0, [2], [3], [4], false, false, .hmacSHA1AES⟩))],
             []))]⟩ := by
    simp [addResponseFrame, framesSetdefault, framesGet, assocFind, assocSet,
      frameVersion]
  rw [h2]
  have h3 : (addConfirmationFrame
      ⟨[(0, ([([1], (1, ⟨0, [1], [9], [9], false, false, .hmacMD5RC4⟩))],
             [((.hmacSHA1AES, [2], [4], [3]),
               (5, ⟨0, [2], [3], [4], false, false, .hmacSHA1AES⟩))],
             []))]⟩
      6 ⟨1, [1], [9], [9], false, false, .hmacSHA1AES⟩).2 =
      ⟨[(0, ([([1], (1, ⟨0, [1], [9], [9], false, false, .hmacMD5RC4⟩))],
             [((.hmacSHA1AES, [2], [4], [3]),
               (5, ⟨0, [2], [3], [4], false, false, .hmacSHA1AES⟩))],
             [([1], (6, ⟨1, [1], [9], [9], false, false, .hmacSHA1AES⟩))]))]⟩ := by
    simp [addConfirmationFrame, framesSetdefault, framesGet, assocFind,
      assocSet]
  rw [h3]
  simp [getAuthentications, buildAuths, buildAuthsF3, buildAuthsF1,
    assocFind, List.mergeSort_singleton, natDist]

/-- A core's statistics: `(resCount, compTime)`. -/
abbrev CoreStats := Nat × ℚ

/-- `CPyrit.getPeakPerformance`: summed `resCount / compTime` over the
cores whose compute time is nonzero. -/
def getPeakPerformance (cores : List CoreStats) : ℚ :=
  ((cores.filter fun c => decide (c.2 ≠ 0)).map fun c => (c.1 : ℚ) / c.2).sum

/-- The scheduler's shared state (`CPyrit`): the ingress queue of
`(essid, dict from global index to password slice)` entries, each dict kept
sorted by key as Python's `sorted(pwdict.items())` iterates it; the egress
out-buffer keyed by global index; the FIFO list of workunit lengths; the
recorded gather slices keyed by the `(essid, passwords)` tuple; and the
global in/out indices. -/
structure SchedState (α β : Type) where
  inqueue : List (String × List (Nat × List α))
  outqueue : List (Nat × List β)
  workunits : List Nat
  slices : List ((String × List α) × List (List (Nat × Nat)))
  in_idx : Nat
  out_idx : Nat
deriving DecidableEq, Repr

/-- The empty scheduler state. -/
def initSched (α β : Type) : SchedState α β := ⟨[], [], [], [], 0, 0⟩

/-- Insert-or-replace into an association list kept sorted by its `Nat`
key, modelling a Python dict iterated through `sorted(...)`. -/
def dictSet {ν : Type} (k : Nat) (v : ν) : List (Nat × ν) → List (Nat × ν)
  | [] => [(k, v)]
  | (k2, v2) :: tl =>
    if k < k2 then (k, v) :: (k2, v2) :: tl
    else if k = k2 then (k, v) :: tl
    else (k2, v2) :: dictSet k v tl

/-- `CPyrit._len`: the number of passwords waiting in the ingress queue. -/
def pendingLen {α β : Type} (st : SchedState α β) : Nat :=
  (st.inqueue.map fun e => (e.2.map fun s => s.2.length).sum).sum

/-- `CPyrit.enqueue` (its state change): coalesce into the last ingress
entry when it has the same ESSID, otherwise append a new entry; record the
workunit length and advance the global in-index. -/
def enqueue {α β : Type} (essid : String) (passwords : List α)
    (st : SchedState α β) : SchedState α β :=
  let inq :=
    match st.inqueue.getLast? with
    | some (e, d) =>
      if e = essid then
        st.inqueue.dropLast ++ [(e, dictSet st.in_idx passwords d)]
      else st.inqueue ++ [(essid, [(st.in_idx, passwords)])]
    | none => [(essid, [(st.in_idx, passwords)])]
  { st with inqueue := inq,
            workunits := st.workunits ++ [passwords.length],
            in_idx := st.in_idx + passwords.length }

/-- Whether `CPyrit.enqueue` waits at entry: the source enters its wait
loop when the ingress is nonempty and either no core has completed work yet
or the pending count exceeds five times the peak performance; the `block`
parameter is accepted but never read. -/
def enqueueWaits {α β : Type} (block : Bool) (cores : List CoreStats)
    (st : SchedState α β) : Bool :=
  decide (0 < pendingLen st) &&
    (decide (getPeakPerformance cores = 0) ||
      decide (getPeakPerformance cores * 5 < (pendingLen st : ℚ)))

/-- The wait condition as the claim words it, for comparison with the
source: wait only when `block` and pending exceeds five times peak. -/
def spec_enqueueWaits {α β : Type} (block : Bool) (cores : List CoreStats)
    (st : SchedState α β) : Bool :=
  block && decide (getPeakPerformance cores * 5 < (pendingLen st : ℚ))

/-- A state with one outstanding single-password workunit and no results:
one ingress entry holding password `7` at index 0, workunit list `[1]`. -/
def oneOutstanding : SchedState Nat Nat := ⟨[("x", [(0, [7])])], [], [1], [], 1, 0⟩

/-- C3 as stated is false: with no cores (peak performance 0) and a single
pending password, `enqueue` with `block = false` waits — the source never
reads `block` and also waits while the peak performance is zero — although
the claim says a non-blocking call returns without waiting. -/
theorem C3_counterexample :
    enqueueWaits false [] oneOutstanding = true ∧
    spec_enqueueWaits false [] oneOutstanding = false := by
  constructor
  · decide
  · decide

/-- C3 (amended): `enqueue` waits — for either value of `block`, which the
source ignores — exactly when the ingress holds at least one password and
either the peak performance is zero or the pending count exceeds five times
the peak performance (the sum over cores with nonzero compute time of
`res_count / comp_time`); the call always appends the password list to the
ingress queue, records its length as a workunit and advances the in-index
by its length. -/
theorem sum_dictSet {α : Type} (k : Nat) (v : List α) :
    ∀ (d : List (Nat × List α)), (∀ sl ∈ d, sl.1 = k → sl.2 = []) →
    ((dictSet k v d).map fun s => s.2.length).sum =
      ((d.map fun s => s.2.length).sum) + v.length
  | [], _ => by simp [dictSet]
  | (k2, v2) :: tl, h => by
    by_cases h1 : k < k2
    · simp only [dictSet, if_pos h1, List.map_cons, List.sum_cons]
      omega
    · by_cases h2 : k = k2
      · have hv2 : v2 = [] := h (k2, v2) (List.mem_cons_self _ _) h2.symm
        simp only [dictSet, if_neg h1, if_pos h2, List.map_cons,
          List.sum_cons, hv2]
        simp
        omega
      · have htl : ∀ sl ∈ tl, sl.1 = k → sl.2 = [] := fun sl hsl =>
          h sl (List.mem_cons_of_mem _ hsl)
        simp only [dictSet, if_neg h1, if_neg h2, List.map_cons,
          List.sum_cons, sum_dictSet k v tl htl]
        omega

theorem getLast?_decomp {γ : Type} :
    ∀ (l : List γ) (x : γ), l.getLast? = some x → l = l.dropLast ++ [x]
  | [], x, h => by simp at h
  | [a], x, h => by
    simp only [List.getLast?_singleton, Option.some.injEq] at h
    simp [h]
  | a :: b :: tl, x, h => by
    have ih := getLast?_decomp (b :: tl) x (by
      rw [← List.getLast?_cons_cons]
      exact h)
    rw [show (a :: b :: tl).dropLast = a :: (b :: tl).dropLast from rfl,
      List.cons_append]
    congr 1

theorem C3_enqueue_wait (α β : Type) (block : Bool) (cores : List CoreStats)
    (st : SchedState α β) (essid : String) (pws : List α)
    (hwf : ∀ e ∈ st.inqueue, ∀ sl ∈ e.2, sl.1 = st.in_idx → sl.2 = []) :
    (enqueueWaits block cores st = true ↔
      0 < pendingLen st ∧ (getPeakPerformance cores = 0 ∨
        getPeakPerformance cores * 5 < (pendingLen st : ℚ))) ∧
    (enqueue (β := β) essid pws st).workunits = st.workunits ++ [pws.length] ∧
    (enqueue (β := β) essid pws st).in_idx = st.in_idx + pws.length ∧
    pendingLen (enqueue (β := β) essid pws st) = pendingLen st + pws.length := by
  refine ⟨by simp [enqueueWaits], by simp [enqueue], by simp [enqueue], ?_⟩
  cases hlast : st.inqueue.getLast? with
  | none =>
    have hnil : st.inqueue = [] := by
      cases hq : st.inqueue with
      | nil => rfl
      | cons a tl =>
        have hs : st.inqueue.getLast?.isSome := by
          rw [List.getLast?_isSome, hq]
          simp
        rw [hlast] at hs
        simp at hs
    simp [enqueue, hlast, pendingLen, hnil]
  | some last =>
    obtain ⟨e, d⟩ := last
    have hdecomp := getLast?_decomp st.inqueue (e, d) hlast
    by_cases hess : e = essid
    · have hwf2 : ∀ sl ∈ d, sl.1 = st.in_idx → sl.2 = [] := by
        intro sl hsl
        refine hwf (e, d) ?_ sl hsl
        rw [hdecomp]
        exact List.mem_append_right _ (by simp)
      simp only [enqueue, hlast, if_pos hess, pendingLen]
      conv_rhs => rw [hdecomp]
      simp only [List.map_append, List.sum_append, List.map_cons,
        List.sum_cons, List.map_nil, List.sum_nil,
        sum_dictSet st.in_idx pws d hwf2]
      omega
    · simp only [enqueue, hlast, if_neg hess, pendingLen]
      simp only [List.map_append, List.sum_append, List.map_cons,
        List.sum_cons, List.map_nil, List.sum_nil]
      omega

/-- Witness for C3 at the empty scheduler state. -/
theorem C3_enqueue_wait_witness :
    (∀ e ∈ (initSched Nat Nat).inqueue, ∀ sl ∈ e.2,
      sl.1 = (initSched Nat Nat).in_idx → sl.2 = []) ∧
    ((enqueueWaits true [] (initSched Nat Nat) = true ↔
        0 < pendingLen (initSched Nat Nat) ∧ (getPeakPerformance [] = 0 ∨
          getPeakPerformance [] * 5 < (pendingLen (initSched Nat Nat) : ℚ))) ∧
      (enqueue (β := Nat) "x" [5] (initSched Nat Nat)).workunits =
        (initSched Nat Nat).workunits ++ [[5].length] ∧
      (enqueue (β := Nat) "x" [5] (initSched Nat Nat)).in_idx =
        (initSched Nat Nat).in_idx + [5].length ∧
      pendingLen (enqueue (β := Nat) "x" [5] (initSched Nat Nat)) =
        pendingLen (initSched Nat Nat) + [5].length) :=
  ⟨by simp [initSched], C3_enqueue_wait Nat Nat true [] (initSched Nat Nat)
    "x" [5] (by simp [initSched])⟩

/-- The possible outcomes of one pass of `CPyrit.dequeue`'s loop body. -/
inductive DequeueStep (α β : Type) where
  | empty
  | notReady
  | ready (results : List β) (st : SchedState α β)
deriving DecidableEq

/-- One pass of `CPyrit.dequeue`'s state inspection: `empty` when no
workunit is outstanding, `notReady` when the out-buffer slice for the
current out-index is missing or shorter than the head workunit, and
otherwise the popped results together with the advanced state. -/
def dequeueStep {α β : Type} (st : SchedState α β) : DequeueStep α β :=
  match st.workunits with
  | [] => .empty
  | wu_length :: restWu =>
    match assocFind st.out_idx st.outqueue with
    | none => .notReady
    | some reslist =>
      if reslist.length < wu_length then .notReady
      else
        .ready (reslist.take wu_length)
          { st with
            outqueue := dictSet (st.out_idx + wu_length)
              (reslist.drop wu_length) (assocErase st.out_idx st.outqueue),
            out_idx := st.out_idx + wu_length,
            workunits := restWu }

/-- What `CPyrit.dequeue` does at one observation point, `elapsed` seconds
after the call: `some none` when it returns `None` now, `some (some r)`
when it returns results now, `none` when it keeps waiting.  The branch
structure mirrors the source: with no outstanding workunit it returns
`None`; with incomplete results it returns `None` when `block` is false;
when `block` is set and a nonzero timeout is given, the source runs
`while time.time() - t > timeout: ... else: return None`, so it returns
`None` as soon as the elapsed time is at most the timeout and otherwise
keeps waiting. -/
def dequeueObserve {α β : Type} (st : SchedState α β) (block : Bool)
    (timeout : Option ℚ) (elapsed : ℚ) : Option (Option (List β)) :=
  match dequeueStep st with
  | .empty => some none
  | .ready r _ => some (some r)
  | .notReady =>
    if block then
      match timeout with
      | some T => if T ≠ 0 then (if elapsed ≤ T then some none else none) else none
      | none => none
    else some none

/-- C2 is a code bug: with one outstanding, incomplete workunit, a blocking
dequeue with timeout 5 returns `None` immediately at elapsed time 0 — the
inverted loop condition `while time.time() - t > timeout` is false on
entry, so the `while`-`else` returns `None` before any waiting — while the
claim (and the method's own docstring) promise blocking until the timeout
has elapsed.  With no outstanding workunit it returns `None` immediately,
as claimed. -/
theorem C2_dequeue_timeout_bug :
    dequeueStep oneOutstanding = DequeueStep.notReady ∧
    dequeueObserve oneOutstanding true (some 5) 0 = some none ∧
    ((0 : ℚ) < 5) ∧
    dequeueObserve (initSched Nat Nat) true (some 5) 0 = some none := by
  refine ⟨by decide, ?_, by norm_num, ?_⟩
  · simp [dequeueObserve, oneOutstanding, dequeueStep, assocFind]
  · simp [dequeueObserve, initSched, dequeueStep]

/-- The result of walking one ingress entry's slice dict during
`_gather`: the remaining dict, the recorded `(index, length)` fragments,
the passwords taken, and the updated `cur_essid` and `restsize`. -/
structure GatherRes (α : Type) where
  dict : List (Nat × List α)
  slices : List (Nat × Nat)
  passwords : List α
  cur : Option String
  rest : Nat
deriving DecidableEq, Repr

/-- The inner loop of `CPyrit._gather` over one entry's
`sorted(pwdict.items())`: empty slices are passed over, the first nonempty
slice fixes `cur_essid`, a nonempty slice of another ESSID breaks, and
otherwise a prefix bounded by `restsize` is consumed — the slice is
deleted, any remainder is re-inserted at the shifted index, the fragment is
recorded, and the walk ends once `restsize` is exhausted. -/
def gatherEntry {α : Type} (essid : String) (cur : Option String) (rest : Nat) :
    List (Nat × List α) → GatherRes α
  | [] => ⟨[], [], [], cur, rest⟩
  | (idx, pwslice) :: tl =>
    if pwslice.isEmpty then
      let r := gatherEntry essid cur rest tl
      ⟨(idx, pwslice) :: r.dict, r.slices, r.passwords, r.cur, r.rest⟩
    else
      if cur = none ∨ cur = some essid then
        let newslice := pwslice.take rest
        let rest2 := rest - newslice.length
        let leftover := pwslice.drop newslice.length
        if rest2 = 0 then
          ⟨if leftover.isEmpty then tl
           else dictSet (idx + newslice.length) leftover tl,
           [(idx, newslice.length)], newslice, some essid, 0⟩
        else
          let r := gatherEntry essid (some essid) rest2 tl
          ⟨r.dict, (idx, newslice.length) :: r.slices, newslice ++ r.passwords,
           r.cur, r.rest⟩
      else ⟨(idx, pwslice) :: tl, [], [], cur, rest⟩

/-- The result of the outer `_gather` walk over the ingress queue. -/
structure GatherQRes (α : Type) where
  queue : List (String × List (Nat × List α))
  slices : List (Nat × Nat)
  passwords : List α
  cur : Option String
  rest : Nat
deriving DecidableEq, Repr

/-- The outer loop of `CPyrit._gather` over the ingress entries: each entry
is walked with `gatherEntry`; an entry whose dict has been emptied is
removed from the queue and — mirroring Python's list-iterator semantics
under `remove` — the following entry is skipped for the remainder of this
call; the walk stops once `restsize` is exhausted. -/
def gatherOuter {α : Type} (cur : Option String) (rest : Nat) :
    List (String × List (Nat × List α)) → GatherQRes α
  | [] => ⟨[], [], [], cur, rest⟩
  | (essid, d) :: tl =>
    let r := gatherEntry essid cur rest d
    if r.dict.isEmpty then
      if r.rest = 0 then ⟨tl, r.slices, r.passwords, r.cur, 0⟩
      else
        match tl with
        | [] => ⟨[], r.slices, r.passwords, r.cur, r.rest⟩
        | skipped :: tl2 =>
          let r2 := gatherOuter r.cur r.rest tl2
          ⟨skipped :: r2.queue, r.slices ++ r2.slices,
           r.passwords ++ r2.passwords, r2.cur, r2.rest⟩
    else
      if r.rest = 0 then ⟨(essid, r.dict) :: tl, r.slices, r.passwords, r.cur, 0⟩
      else
        let r2 := gatherOuter r.cur r.rest tl
        ⟨(essid, r.dict) :: r2.queue, r.slices ++ r2.slices,
         r.passwords ++ r2.passwords, r2.cur, r2.rest⟩

/-- `CPyrit._gather` (one pass, without blocking): walk the ingress queue;
when passwords were gathered, record the consumed fragments under the
`(essid, passwords)` workunit tuple and return it with the new state;
otherwise report nothing gathered (the timeout path). -/
def gather {α β : Type} [DecidableEq α] (desired : Nat) (st : SchedState α β) :
    Option ((String × List α) × SchedState α β) :=
  let r := gatherOuter none desired st.inqueue
  match r.cur, r.passwords with
  | some essid, p0 :: prest =>
    let wu := (essid, p0 :: prest)
    let newSlices :=
      match assocFind wu st.slices with
      | some ls => assocSet wu (ls ++ [r.slices]) st.slices
      | none => st.slices ++ [(wu, [r.slices])]
    some (wu, { st with inqueue := r.queue, slices := newSlices })
  | _, _ => none

/-- The write-back loop of `CPyrit._scatter`: each recorded fragment
receives the matching run of results in the out-buffer. -/
def writeSlices {β : Type} (results : List β) :
    List (Nat × Nat) → Nat → List (Nat × List β) → List (Nat × List β)
  | [], _, oq => oq
  | (idx, len) :: tl, ptr, oq =>
    writeSlices results tl (ptr + len)
      (dictSet idx ((results.drop ptr).take len) oq)

/-- One step of the merge loop of `CPyrit._scatter`: extend the run at
`idx` with an adjacent completed run when present (when the run at `idx`
is empty and self-adjacent, the deletion removes it). -/
def mergeStep {β : Type} (oq : List (Nat × List β)) (idx : Nat) :
    List (Nat × List β) :=
  match assocFind idx oq with
  | none => oq
  | some res =>
    match assocFind (idx + res.length) oq with
    | none => oq
    | some res2 => assocErase (idx + res.length) (dictSet idx (res ++ res2) oq)

/-- The merge loop of `CPyrit._scatter`: all out-buffer keys except the
largest, in descending order. -/
def mergeOutqueue {β : Type} (oq : List (Nat × List β)) : List (Nat × List β) :=
  (((oq.map Prod.fst).reverse).drop 1).foldl mergeStep oq

/-- `CPyrit._scatter`: check the result count, pop the oldest slice
recording for the workunit tuple, write the results back at the recorded
indices and merge adjacent completed runs.  `none` models the assertion
failure and the `KeyError` on an unknown workunit. -/
def scatter {α β : Type} [DecidableEq α] (essid : String) (passwords : List α)
    (results : List β) (st : SchedState α β) : Option (SchedState α β) :=
  if results.length ≠ passwords.length then none
  else
    match assocFind (essid, passwords) st.slices with
    | none => none
    | some [] => none
    | some (sl :: restLists) =>
      let slices2 :=
        if restLists.isEmpty then assocErase (essid, passwords) st.slices
        else assocSet (essid, passwords) restLists st.slices
      some { st with
             outqueue := mergeOutqueue (writeSlices results sl 0 st.outqueue),
             slices := slices2 }

/-- Whether an entry's dict holds at least one nonempty slice. -/
def entryHasNonempty {α : Type} (d : List (Nat × List α)) : Bool :=
  d.any fun s => !s.2.isEmpty

/-- The ESSID of the first ingress entry holding a nonempty slice. -/
def firstNonemptyEssid {α : Type}
    (q : List (String × List (Nat × List α))) : Option String :=
  (q.find? fun e => entryHasNonempty e.2).map Prod.fst

theorem gatherEntry_provenance {α : Type} (essid : String) :
    ∀ (cur : Option String) (rest : Nat) (d : List (Nat × List α)),
    ∀ x ∈ (gatherEntry essid cur rest d).passwords, ∃ sl ∈ d, x ∈ sl.2 := by
  intro cur rest d
  induction d generalizing cur rest with
  | nil => intro x hx; simp [gatherEntry] at hx
  | cons hd tl ih =>
    obtain ⟨idx, pwslice⟩ := hd
    intro x hx
    by_cases he : pwslice.isEmpty
    · simp only [gatherEntry, if_pos he] at hx
      obtain ⟨sl, hsl, hx2⟩ := ih cur rest x hx
      exact ⟨sl, List.mem_cons_of_mem _ hsl, hx2⟩
    · simp only [gatherEntry, if_neg he] at hx
      by_cases hc : cur = none ∨ cur = some essid
      · rw [if_pos hc] at hx
        by_cases hr : rest - (pwslice.take rest).length = 0
        · rw [if_pos hr] at hx
          simp only at hx
          exact ⟨(idx, pwslice), List.mem_cons_self _ _,
            List.mem_of_mem_take hx⟩
        · rw [if_neg hr] at hx
          simp only [List.mem_append] at hx
          cases hx with
          | inl h =>
            exact ⟨(idx, pwslice), List.mem_cons_self _ _,
              List.mem_of_mem_take h⟩
          | inr h =>
            obtain ⟨sl, hsl, hx2⟩ := ih _ _ x h
            exact ⟨sl, List.mem_cons_of_mem _ hsl, hx2⟩
      · rw [if_neg hc] at hx
        simp at hx

theorem gatherEntry_cur {α : Type} (essid : String) :
    ∀ (cur : Option String) (rest : Nat) (d : List (Nat × List α)),
    (gatherEntry essid cur rest d).cur = cur ∨
      (cur = none ∧ (gatherEntry essid cur rest d).cur = some essid) := by
  intro cur rest d
  induction d generalizing cur rest with
  | nil => left; rfl
  | cons hd tl ih =>
    obtain ⟨idx, pwslice⟩ := hd
    by_cases he : pwslice.isEmpty
    · simp only [gatherEntry, if_pos he]
      exact ih cur rest
    · simp only [gatherEntry, if_neg he]
      by_cases hc : cur = none ∨ cur = some essid
      · rw [if_pos hc]
        by_cases hr : rest - (pwslice.take rest).length = 0
        · rw [if_pos hr]
          rcases hc with h | h
          · right; exact ⟨h, rfl⟩
          · left; rw [h]
        · rw [if_neg hr]
          simp only
          have := ih (some essid) (rest - (pwslice.take rest).length)
          rcases this with h | ⟨h, _⟩
          · rcases hc with h2 | h2
            · right; exact ⟨h2, h⟩
            · left; rw [h2, h]
          · exact absurd h (by simp)
      · rw [if_neg hc]
        left; rfl

theorem gatherEntry_cur_of_pw {α : Type} (essid : String) :
    ∀ (cur : Option String) (rest : Nat) (d : List (Nat × List α)),
    (gatherEntry essid cur rest d).passwords ≠ [] →
    (gatherEntry essid cur rest d).cur = some essid := by
  intro cur rest d
  induction d generalizing cur rest with
  | nil => intro h; exact absurd rfl h
  | cons hd tl ih =>
    obtain ⟨idx, pwslice⟩ := hd
    intro h
    by_cases he : pwslice.isEmpty
    · simp only [gatherEntry, if_pos he] at h ⊢
      exact ih cur rest h
    · simp only [gatherEntry, if_neg he] at h ⊢
      by_cases hc : cur = none ∨ cur = some essid
      · rw [if_pos hc] at h ⊢
        by_cases hr : rest - (pwslice.take rest).length = 0
        · rw [if_pos hr]
        · rw [if_neg hr] at h ⊢
          simp only
          have := gatherEntry_cur essid (some essid)
            (rest - (pwslice.take rest).length) tl
          rcases this with h2 | ⟨h2, _⟩
          · exact h2
          · exact absurd h2 (by simp)
      · rw [if_neg hc] at h
        exact absurd rfl h

theorem gatherEntry_stale {α : Type} (essid : String) :
    ∀ (cur : Option String) (rest : Nat) (d : List (Nat × List α)),
    (∀ sl ∈ d, sl.2 = []) →
    gatherEntry essid cur rest d = ⟨d, [], [], cur, rest⟩ := by
  intro cur rest d
  induction d generalizing cur rest with
  | nil => intro _; rfl
  | cons hd tl ih =>
    obtain ⟨idx, pwslice⟩ := hd
    intro h
    have he : pwslice.isEmpty := by
      have h2 : pwslice = [] := h (idx, pwslice) (List.mem_cons_self _ _)
      rw [h2]
      rfl
    have htl : ∀ sl ∈ tl, sl.2 = [] := fun sl hsl =>
      h sl (List.mem_cons_of_mem _ hsl)
    simp only [gatherEntry, if_pos he, ih cur rest htl]

theorem gatherEntry_first {α : Type} (essid : String) :
    ∀ (rest : Nat) (d : List (Nat × List α)),
    entryHasNonempty d = true →
    (gatherEntry essid none rest d).cur = some essid := by
  intro rest d
  induction d generalizing rest with
  | nil => intro h; simp [entryHasNonempty] at h
  | cons hd tl ih =>
    obtain ⟨idx, pwslice⟩ := hd
    intro h
    by_cases he : pwslice.isEmpty
    · have htl : entryHasNonempty tl = true := by
        simp only [entryHasNonempty, List.any_cons, he] at h ⊢
        simpa using h
      simp only [gatherEntry, if_pos he]
      exact ih rest htl
    · simp only [gatherEntry, if_neg he]
      rw [if_pos (Or.inl trivial)]
      by_cases hr : rest - (pwslice.take rest).length = 0
      · rw [if_pos hr]
      · rw [if_neg hr]
        simp only
        have := gatherEntry_cur essid (some essid)
          (rest - (pwslice.take rest).length) tl
        rcases this with h2 | ⟨h2, _⟩
        · exact h2
        · exact absurd h2 (by simp)

theorem gatherOuter_cur_some {α : Type} :
    ∀ (q : List (String × List (Nat × List α))) (e : String) (rest : Nat),
    (gatherOuter (some e) rest q).cur = some e
  | [], _, _ => rfl
  | (essid, d) :: tl, e, rest => by
    have hr : (gatherEntry essid (some e) rest d).cur = some e := by
      rcases gatherEntry_cur essid (some e) rest d with h | ⟨h, _⟩
      · exact h
      · exact absurd h (by simp)
    rw [gatherOuter.eq_def]
    dsimp only
    by_cases h1 : (gatherEntry essid (some e) rest d).dict.isEmpty
    · rw [if_pos h1]
      by_cases h2 : (gatherEntry essid (some e) rest d).rest = 0
      · rw [if_pos h2]
        exact hr
      · rw [if_neg h2]
        cases tl with
        | nil => exact hr
        | cons skipped tl2 =>
          dsimp only
          rw [hr]
          exact gatherOuter_cur_some tl2 e _
    · rw [if_neg h1]
      by_cases h2 : (gatherEntry essid (some e) rest d).rest = 0
      · rw [if_pos h2]
        exact hr
      · rw [if_neg h2]
        dsimp only
        rw [hr]
        exact gatherOuter_cur_some tl e _

theorem gatherOuter_provenance {α : Type} :
    ∀ (q : List (String × List (Nat × List α))) (cur : Option String)
      (rest : Nat), ∀ x ∈ (gatherOuter cur rest q).passwords,
    ∃ e ∈ q, some e.1 = (gatherOuter cur rest q).cur ∧ ∃ sl ∈ e.2, x ∈ sl.2
  | [], cur, rest => by
    intro x hx
    simp [gatherOuter] at hx
  | (essid, d) :: tl, cur, rest => by
    intro x hx
    rw [gatherOuter.eq_def] at hx ⊢
    dsimp only at hx ⊢
    by_cases h1 : (gatherEntry essid cur rest d).dict.isEmpty
    · rw [if_pos h1] at hx ⊢
      by_cases h2 : (gatherEntry essid cur rest d).rest = 0
      · rw [if_pos h2] at hx ⊢
        dsimp only at hx ⊢
        have hpw : (gatherEntry essid cur rest d).passwords ≠ [] :=
          List.ne_nil_of_mem hx
        have hcur := gatherEntry_cur_of_pw essid cur rest d hpw
        obtain ⟨sl, hsl, hx2⟩ := gatherEntry_provenance essid cur rest d x hx
        exact ⟨(essid, d), List.mem_cons_self _ _, by rw [hcur],
          sl, hsl, hx2⟩
      · rw [if_neg h2] at hx ⊢
        cases tl with
        | nil =>
          dsimp only at hx ⊢
          have hpw : (gatherEntry essid cur rest d).passwords ≠ [] :=
            List.ne_nil_of_mem hx
          have hcur := gatherEntry_cur_of_pw essid cur rest d hpw
          obtain ⟨sl, hsl, hx2⟩ := gatherEntry_provenance essid cur rest d x hx
          exact ⟨(essid, d), List.mem_cons_self _ _, by rw [hcur],
            sl, hsl, hx2⟩
        | cons skipped tl2 =>
          dsimp only at hx ⊢
          rcases List.mem_append.mp hx with hx1 | hx2
          · have hpw : (gatherEntry essid cur rest d).passwords ≠ [] :=
              List.ne_nil_of_mem hx1
            have hcur := gatherEntry_cur_of_pw essid cur rest d hpw
            have hfinal : (gatherOuter (gatherEntry essid cur rest d).cur
                (gatherEntry essid cur rest d).rest tl2).cur = some essid := by
              rw [hcur]
              exact gatherOuter_cur_some tl2 essid _
            obtain ⟨sl, hsl, hx3⟩ :=
              gatherEntry_provenance essid cur rest d x hx1
            exact ⟨(essid, d), List.mem_cons_self _ _, by rw [hfinal],
              sl, hsl, hx3⟩
          · obtain ⟨e, he, hce, sl, hsl, hx3⟩ :=
              gatherOuter_provenance tl2 (gatherEntry essid cur rest d).cur
                (gatherEntry essid cur rest d).rest x hx2
            exact ⟨e, List.mem_cons_of_mem _ (List.mem_cons_of_mem _ he),
              hce, sl, hsl, hx3⟩
    · rw [if_neg h1] at hx ⊢
      by_cases h2 : (gatherEntry essid cur rest d).rest = 0
      · rw [if_pos h2] at hx ⊢
        dsimp only at hx ⊢
        have hpw : (gatherEntry essid cur rest d).passwords ≠ [] :=
          List.ne_nil_of_mem hx
        have hcur := gatherEntry_cur_of_pw essid cur rest d hpw
        obtain ⟨sl, hsl, hx2⟩ := gatherEntry_provenance essid cur rest d x hx
        exact ⟨(essid, d), List.mem_cons_self _ _, by rw [hcur],
          sl, hsl, hx2⟩
      · rw [if_neg h2] at hx ⊢
        dsimp only at hx ⊢
        rcases List.mem_append.mp hx with hx1 | hx2
        · have hpw : (gatherEntry essid cur rest d).passwords ≠ [] :=
            List.ne_nil_of_mem hx1
          have hcur := gatherEntry_cur_of_pw essid cur rest d hpw
          have hfinal : (gatherOuter (gatherEntry essid cur rest d).cur
              (gatherEntry essid cur rest d).rest tl).cur = some essid := by
            rw [hcur]
            exact gatherOuter_cur_some tl essid _
          obtain ⟨sl, hsl, hx3⟩ :=
            gatherEntry_provenance essid cur rest d x hx1
          exact ⟨(essid, d), List.mem_cons_self _ _, by rw [hfinal],
            sl, hsl, hx3⟩
        · obtain ⟨e, he, hce, sl, hsl, hx3⟩ :=
            gatherOuter_provenance tl (gatherEntry essid cur rest d).cur
              (gatherEntry essid cur rest d).rest x hx2
          exact ⟨e, List.mem_cons_of_mem _ he, hce, sl, hsl, hx3⟩

theorem gatherOuter_head {α : Type} :
    ∀ (q : List (String × List (Nat × List α))) (rest : Nat),
    (∀ e ∈ q, e.2 ≠ []) →
    (gatherOuter none rest q).passwords ≠ [] →
    (gatherOuter none rest q).cur = firstNonemptyEssid q
  | [], rest => by
    intro _ hp
    exact absurd rfl hp
  | (essid, d) :: tl, rest => by
    intro hwf hp
    rw [gatherOuter.eq_def] at hp ⊢
    dsimp only at hp ⊢
    by_cases hne : entryHasNonempty d = true
    · have hcur : (gatherEntry essid none rest d).cur = some essid :=
        gatherEntry_first essid rest d hne
      have hfirst : firstNonemptyEssid ((essid, d) :: tl) = some essid := by
        simp only [firstNonemptyEssid]
        rw [@List.find?_cons_of_pos _ (fun e => entryHasNonempty e.2)
          (essid, d) tl hne]
        rfl
      rw [hfirst]
      by_cases h1 : (gatherEntry essid none rest d).dict.isEmpty
      · rw [if_pos h1]
        by_cases h2 : (gatherEntry essid none rest d).rest = 0
        · rw [if_pos h2]
          exact hcur
        · rw [if_neg h2]
          cases tl with
          | nil => exact hcur
          | cons skipped tl2 =>
            dsimp only
            rw [hcur]
            exact gatherOuter_cur_some tl2 essid _
      · rw [if_neg h1]
        by_cases h2 : (gatherEntry essid none rest d).rest = 0
        · rw [if_pos h2]
          exact hcur
        · rw [if_neg h2]
          dsimp only
          rw [hcur]
          exact gatherOuter_cur_some tl essid _
    · have hstale : ∀ sl ∈ d, sl.2 = [] := by
        intro sl hsl
        by_contra hne2
        apply hne
        simp only [entryHasNonempty, List.any_eq_true]
        refine ⟨sl, hsl, ?_⟩
        simpa [List.isEmpty_iff] using hne2
      have hge := gatherEntry_stale essid none rest d hstale
      have hdne : d ≠ [] := hwf (essid, d) (List.mem_cons_self _ _)
      have hfirst : firstNonemptyEssid ((essid, d) :: tl) =
          firstNonemptyEssid tl := by
        simp only [firstNonemptyEssid]
        rw [@List.find?_cons_of_neg _ (fun e => entryHasNonempty e.2)
          (essid, d) tl hne]
      rw [hfirst]
      rw [hge] at hp ⊢
      dsimp only at hp ⊢
      have h1 : ¬d.isEmpty = true := by
        simpa [List.isEmpty_iff] using hdne
      rw [if_neg h1] at hp ⊢
      by_cases h2 : rest = 0
      · rw [if_pos h2] at hp
        exact absurd rfl hp
      · rw [if_neg h2] at hp ⊢
        dsimp only at hp ⊢
        have hp2 : (gatherOuter (α := α) none rest tl).passwords ≠ [] := by
          simpa using hp
        have := gatherOuter_head tl rest
          (fun e he => hwf e (List.mem_cons_of_mem _ he)) hp2
        simpa using this

/-- C4: every `(essid, passwords)` tuple returned by `_gather` draws its
passwords from ingress entries carrying exactly the returned ESSID, which
is the ESSID of the first ingress entry holding a nonempty slice (the
current head of the queue); a batch never mixes ESSIDs. -/
theorem C4_gather_single_essid (α β : Type) [DecidableEq α] (desired : Nat)
    (st : SchedState α β) (essid : String) (pws : List α)
    (st2 : SchedState α β) (hwf : ∀ e ∈ st.inqueue, e.2 ≠ [])
    (hg : gather desired st = some ((essid, pws), st2)) :
    (∀ x ∈ pws, ∃ e ∈ st.inqueue, e.1 = essid ∧ ∃ sl ∈ e.2, x ∈ sl.2) ∧
    firstNonemptyEssid st.inqueue = some essid := by
  simp only [gather] at hg
  rcases hcur : (gatherOuter none desired st.inqueue).cur with _ | e
  · rw [hcur] at hg
    simp at hg
  · rcases hpw : (gatherOuter none desired st.inqueue).passwords with _ | ⟨p0, prest⟩
    · rw [hcur, hpw] at hg
      simp at hg
    · rw [hcur, hpw] at hg
      simp only [Option.some.injEq, Prod.mk.injEq] at hg
      obtain ⟨⟨he1, he2⟩, -⟩ := hg
      subst he1
      subst he2
      constructor
      · intro x hx
        have hx2 : x ∈ (gatherOuter none desired st.inqueue).passwords := by
          rw [hpw]
          exact hx
        obtain ⟨en, hen, hce, sl, hsl, hxsl⟩ :=
          gatherOuter_provenance st.inqueue none desired x hx2
        rw [hcur] at hce
        exact ⟨en, hen, Option.some.inj hce, sl, hsl, hxsl⟩
      · have := gatherOuter_head st.inqueue desired hwf (by rw [hpw]; simp)
        rw [hcur] at this
        exact this.symm

/-- Witness for C4 at a one-entry state holding two passwords. -/
theorem C4_gather_single_essid_witness :
    (∀ e ∈ (⟨[("x", [(0, [5, 6])])], [], [2], [], 2, 0⟩ :
        SchedState Nat Nat).inqueue, e.2 ≠ []) ∧
    gather 1 (⟨[("x", [(0, [5, 6])])], [], [2], [], 2, 0⟩ : SchedState Nat Nat) =
      some (("x", [5]),
        ⟨[("x", [(1, [6])])], [], [2], [(("x", [5]), [[(0, 1)]])], 2, 0⟩) ∧
    ((∀ x ∈ [5], ∃ e ∈ (⟨[("x", [(0, [5, 6])])], [], [2], [], 2, 0⟩ :
        SchedState Nat Nat).inqueue, e.1 = "x" ∧ ∃ sl ∈ e.2, x ∈ sl.2) ∧
      firstNonemptyEssid (⟨[("x", [(0, [5, 6])])], [], [2], [], 2, 0⟩ :
        SchedState Nat Nat).inqueue = some "x") :=
  ⟨by simp, by decide,
   C4_gather_single_essid Nat Nat 1 ⟨[("x", [(0, [5, 6])])], [], [2], [], 2, 0⟩
     "x" [5] ⟨[("x", [(1, [6])])], [], [2], [(("x", [5]), [[(0, 1)]])], 2, 0⟩
     (by simp) (by decide)⟩

/-- One core round against the scheduler: `_gather` one password, solve it
by applying `f` (one PMK per password), and `_scatter` the results back. -/
def gatherScatter1 {α β : Type} [DecidableEq α] (f : α → β)
    (st : SchedState α β) : SchedState α β :=
  match gather 1 st with
  | none => st
  | some ((essid, pws), st1) =>
    match scatter essid pws (pws.map f) st1 with
    | none => st1
    | some st2 => st2

/-- `n` core rounds. -/
def processRounds {α β : Type} [DecidableEq α] (f : α → β) :
    Nat → SchedState α β → SchedState α β
  | 0, st => st
  | n + 1, st => processRounds f n (gatherScatter1 f st)

/-- `n` successive dequeues, recording for each whether it succeeded and
with which results. -/
def dequeueAll {α β : Type} : Nat → SchedState α β → List (Option (List β))
  | 0, _ => []
  | n + 1, st =>
    match dequeueStep st with
    | .ready r st2 => some r :: dequeueAll n st2
    | _ => none :: dequeueAll n st

/-- A complete canonical execution: perform the given enqueue calls in
order, letting a core fully process each enqueue's passwords before the
next call, then dequeue once per enqueue. -/
def canonicalRun {α β : Type} [DecidableEq α] (f : α → β)
    (enqs : List (String × List α)) : List (Option (List β)) :=
  dequeueAll enqs.length
    (enqs.foldl (fun st e => processRounds f e.2.length (enqueue e.1 e.2 st))
      (initSched α β))

/-- All slices of a dict are empty password lists. -/
def emptyVals {α : Type} (d : List (Nat × List α)) : Prop :=
  ∀ sl ∈ d, sl.2 = []

/-- Every entry of the queue is stale: a nonempty dict of empty slices. -/
def staleQueue {α : Type}
    (S : List (String × List (Nat × List α))) : Prop :=
  ∀ e ∈ S, e.2 ≠ [] ∧ emptyVals e.2

/-- The remainder of a drained entry: dropped entirely when its dict is
empty, kept as a stale entry otherwise. -/
def staleTail {α : Type} (essid : String) (d : List (Nat × List α)) :
    List (String × List (Nat × List α)) :=
  if d.isEmpty then [] else [(essid, d)]

/-- The canonical out-buffer: one merged run starting at index 0. -/
def outqAt0 {β : Type} (cs : List β) : List (Nat × List β) :=
  if cs.isEmpty then [] else [(0, cs)]

theorem gatherOuter_stale_front {α : Type} :
    ∀ (S Q : List (String × List (Nat × List α))) (rest : Nat), rest ≠ 0 →
    staleQueue S →
    gatherOuter none rest (S ++ Q) =
      ⟨S ++ (gatherOuter none rest Q).queue, (gatherOuter none rest Q).slices,
       (gatherOuter none rest Q).passwords, (gatherOuter none rest Q).cur,
       (gatherOuter none rest Q).rest⟩
  | [], Q, rest => by intro _ _; rfl
  | (e0, d0) :: S', Q, rest => by
    intro hrest hS
    obtain ⟨hd0ne, hd0e⟩ := hS (e0, d0) (List.mem_cons_self _ _)
    rw [List.cons_append, gatherOuter.eq_def]
    dsimp only
    rw [gatherEntry_stale e0 none rest d0 hd0e]
    dsimp only
    have h1 : ¬d0.isEmpty = true := by simpa [List.isEmpty_iff] using hd0ne
    rw [if_neg h1, if_neg hrest]
    rw [gatherOuter_stale_front S' Q rest hrest
      (fun e he => hS e (List.mem_cons_of_mem _ he))]
    rfl

theorem gatherEntry_live {α : Type} (essid : String) (k : Nat) (p : α)
    (rem : List α) :
    ∀ (E1 E2 : List (Nat × List α)), emptyVals E1 →
    gatherEntry essid none 1 (E1 ++ (k, p :: rem) :: E2) =
      ⟨E1 ++ (if rem.isEmpty then E2 else dictSet (k + 1) rem E2),
       [(k, 1)], [p], some essid, 0⟩
  | [], E2, _ => by
    rw [List.nil_append, List.nil_append]
    simp only [gatherEntry, List.isEmpty_cons, Bool.false_eq_true,
      if_false, List.take_succ_cons, List.take_zero, List.length_cons,
      List.length_nil, List.drop_succ_cons, List.drop_zero]
    rw [if_pos (Or.inl trivial)]
    simp
  | (i0, v0) :: E1', E2, hE => by
    have hv0 : v0 = [] := hE (i0, v0) (List.mem_cons_self _ _)
    have hE' : emptyVals E1' := fun sl hsl => hE sl (List.mem_cons_of_mem _ hsl)
    rw [List.cons_append]
    simp only [gatherEntry, hv0, List.isEmpty_nil, if_true]
    rw [gatherEntry_live essid k p rem E1' E2 hE']
    rfl

theorem gatherOuter_live {α : Type} (essid : String) (k : Nat) (p : α)
    (rem : List α) (E1 E2 : List (Nat × List α)) (hE : emptyVals E1) :
    gatherOuter none 1 [(essid, E1 ++ (k, p :: rem) :: E2)] =
      ⟨staleTail essid
        (E1 ++ (if rem.isEmpty then E2 else dictSet (k + 1) rem E2)),
       [(k, 1)], [p], some essid, 0⟩ := by
  rw [gatherOuter.eq_def]
  dsimp only
  rw [gatherEntry_live essid k p rem E1 E2 hE]
  dsimp only
  by_cases hD : (E1 ++ (if rem.isEmpty then E2
      else dictSet (k + 1) rem E2)).isEmpty
  · rw [if_pos hD, if_pos rfl]
    simp [staleTail, List.isEmpty_iff.mp hD]
  · rw [if_neg hD, if_pos rfl]
    rw [staleTail, if_neg hD]

theorem gatherOuter_canonical {α : Type} (S : List (String × List (Nat × List α)))
    (essid : String) (k : Nat) (p : α) (rem : List α)
    (E1 E2 : List (Nat × List α)) (hS : staleQueue S) (hE : emptyVals E1) :
    gatherOuter none 1 (S ++ [(essid, E1 ++ (k, p :: rem) :: E2)]) =
      ⟨S ++ staleTail essid
        (E1 ++ (if rem.isEmpty then E2 else dictSet (k + 1) rem E2)),
       [(k, 1)], [p], some essid, 0⟩ := by
  rw [gatherOuter_stale_front S _ 1 one_ne_zero hS,
    gatherOuter_live essid k p rem E1 E2 hE]

theorem merge_dictSet_outqAt0 {β : Type} (cs : List β) (b : β) :
    mergeOutqueue (dictSet cs.length [b] (outqAt0 cs)) = outqAt0 (cs ++ [b]) := by
  cases cs with
  | nil =>
    simp [outqAt0, dictSet, mergeOutqueue]
  | cons c0 cs' =>
    have h1 : dictSet (c0 :: cs').length [b] (outqAt0 (c0 :: cs')) =
        [(0, c0 :: cs'), ((c0 :: cs').length, [b])] := by
      simp [outqAt0, dictSet]
    rw [h1]
    have h2 : mergeOutqueue [(0, c0 :: cs'), ((c0 :: cs').length, [b])] =
        [(0, (c0 :: cs') ++ [b])] := by
      simp [mergeOutqueue, mergeStep, assocFind, assocErase, dictSet]
    rw [h2]
    simp [outqAt0]

theorem gatherScatter1_canonical {α β : Type} [DecidableEq α] (f : α → β)
    (S : List (String × List (Nat × List α))) (essid : String)
    (E1 E2 : List (Nat × List α)) (p : α) (rem : List α) (cs : List β)
    (W : List Nat) (ii : Nat) (hS : staleQueue S) (hE : emptyVals E1) :
    gatherScatter1 f
      ⟨S ++ [(essid, E1 ++ (cs.length, p :: rem) :: E2)], outqAt0 cs, W, [],
        ii, 0⟩ =
      ⟨S ++ staleTail essid
        (E1 ++ (if rem.isEmpty then E2 else dictSet (cs.length + 1) rem E2)),
       outqAt0 (cs ++ [f p]), W, [], ii, 0⟩ := by
  have hg : gather 1
      (⟨S ++ [(essid, E1 ++ (cs.length, p :: rem) :: E2)], outqAt0 cs, W, [],
        ii, 0⟩ : SchedState α β) =
      some ((essid, [p]),
        ⟨S ++ staleTail essid
          (E1 ++ (if rem.isEmpty then E2 else dictSet (cs.length + 1) rem E2)),
         outqAt0 cs, W, [((essid, [p]), [[(cs.length, 1)]])], ii, 0⟩) := by
    simp only [gather]
    rw [gatherOuter_canonical S essid cs.length p rem E1 E2 hS hE]
    simp [assocFind]
  have hsc : scatter essid [p] (List.map f [p])
      (⟨S ++ staleTail essid
        (E1 ++ (if rem.isEmpty then E2 else dictSet (cs.length + 1) rem E2)),
       outqAt0 cs, W, [((essid, [p]), [[(cs.length, 1)]])], ii, 0⟩ :
        SchedState α β) =
      some ⟨S ++ staleTail essid
        (E1 ++ (if rem.isEmpty then E2 else dictSet (cs.length + 1) rem E2)),
       outqAt0 (cs ++ [f p]), W, [], ii, 0⟩ := by
    simp only [scatter]
    rw [if_neg (by simp)]
    rw [show assocFind ((essid, [p]) : String × List α)
        [((essid, [p]), [[(cs.length, 1)]])] = some [[(cs.length, 1)]] from by
      simp [assocFind]]
    dsimp only
    have hw : writeSlices (List.map f [p]) [(cs.length, 1)] 0 (outqAt0 cs) =
        dictSet cs.length [f p] (outqAt0 cs) := by
      simp [writeSlices]
    rw [hw, merge_dictSet_outqAt0 cs (f p)]
    simp [assocErase]
  unfold gatherScatter1
  rw [hg]
  dsimp only
  rw [hsc]

theorem dictSet_decomp {α : Type} (k : Nat) (v : List α) :
    ∀ (E : List (Nat × List α)), emptyVals E →
    ∃ E1 E2, dictSet k v E = E1 ++ (k, v) :: E2 ∧ emptyVals E1 ∧ emptyVals E2
  | [], _ => ⟨[], [], rfl, fun _ h => absurd h (List.not_mem_nil _),
      fun _ h => absurd h (List.not_mem_nil _)⟩
  | (k2, v2) :: tl, h => by
    have hv2 : v2 = [] := h (k2, v2) (List.mem_cons_self _ _)
    have htl : emptyVals tl := fun sl hsl => h sl (List.mem_cons_of_mem _ hsl)
    by_cases h1 : k < k2
    · exact ⟨[], (k2, v2) :: tl, by simp [dictSet, h1],
        fun _ hx => absurd hx (List.not_mem_nil _), h⟩
    · by_cases h2 : k = k2
      · exact ⟨[], tl, by simp [dictSet, h1, h2],
          fun _ hx => absurd hx (List.not_mem_nil _), htl⟩
      · obtain ⟨E1, E2, heq, he1, he2⟩ := dictSet_decomp k v tl htl
        refine ⟨(k2, v2) :: E1, E2, by simp [dictSet, h1, h2, heq], ?_, he2⟩
        intro sl hsl
        rcases List.mem_cons.mp hsl with h3 | h3
        · rw [h3]; exact hv2
        · exact he1 sl h3

theorem processRounds_canonical {α β : Type} [DecidableEq α] (f : α → β) :
    ∀ (live : List α) (S : List (String × List (Nat × List α)))
      (essid : String) (E1 E2 : List (Nat × List α)) (cs : List β)
      (W : List Nat) (ii : Nat), staleQueue S → emptyVals E1 → emptyVals E2 →
    ∃ S2, staleQueue S2 ∧
      processRounds f live.length
        ⟨S ++ [(essid, E1 ++ (cs.length, live) :: E2)], outqAt0 cs, W, [],
          ii, 0⟩ =
        ⟨S2, outqAt0 (cs ++ live.map f), W, [], ii, 0⟩
  | [], S, essid, E1, E2, cs, W, ii => by
    intro hS hE1 hE2
    refine ⟨S ++ [(essid, E1 ++ (cs.length, []) :: E2)], ?_, by
      simp [processRounds]⟩
    intro e he
    rcases List.mem_append.mp he with h | h
    · exact hS e h
    · rcases List.mem_singleton.mp h with h2
      subst h2
      refine ⟨by simp, ?_⟩
      intro sl hsl
      rcases List.mem_append.mp hsl with h3 | h3
      · exact hE1 sl h3
      · rcases List.mem_cons.mp h3 with h4 | h4
        · rw [h4]
        · exact hE2 sl h4
  | p :: rem, S, essid, E1, E2, cs, W, ii => by
    intro hS hE1 hE2
    rw [List.length_cons, processRounds,
      gatherScatter1_canonical f S essid E1 E2 p rem cs W ii hS hE1]
    by_cases hrem : rem.isEmpty
    · have hrem2 : rem = [] := List.isEmpty_iff.mp hrem
      subst hrem2
      rw [if_pos hrem]
      refine ⟨S ++ staleTail essid (E1 ++ E2), ?_, by simp [processRounds]⟩
      intro e he
      rcases List.mem_append.mp he with h | h
      · exact hS e h
      · unfold staleTail at h
        by_cases hD : (E1 ++ E2).isEmpty
        · rw [if_pos hD] at h
          exact absurd h (List.not_mem_nil _)
        · rw [if_neg hD] at h
          rcases List.mem_singleton.mp h with h2
          subst h2
          refine ⟨by simpa [List.isEmpty_iff] using hD, ?_⟩
          intro sl hsl
          rcases List.mem_append.mp hsl with h3 | h3
          · exact hE1 sl h3
          · exact hE2 sl h3
    · rw [if_neg hrem]
      obtain ⟨E1x, E2x, heq, he1, he2⟩ :=
        dictSet_decomp (cs.length + 1) rem E2 hE2
      have hlen : (cs ++ [f p]).length = cs.length + 1 := by simp
      have hq : staleTail essid (E1 ++ dictSet (cs.length + 1) rem E2) =
          [(essid, (E1 ++ E1x) ++ ((cs ++ [f p]).length, rem) :: E2x)] := by
        rw [heq, hlen, staleTail, if_neg (by simp)]
        simp
      rw [hq]
      have hE1x : emptyVals (E1 ++ E1x) := by
        intro sl hsl
        rcases List.mem_append.mp hsl with h | h
        · exact hE1 sl h
        · exact he1 sl h
      obtain ⟨S2, hS2, heq2⟩ := processRounds_canonical f rem S essid
        (E1 ++ E1x) E2x (cs ++ [f p]) W ii hS hE1x he2
      refine ⟨S2, hS2, ?_⟩
      rw [heq2]
      simp

theorem enqueueProcess_canonical {α β : Type} [DecidableEq α] (f : α → β) :
    ∀ (enqs : List (String × List α))
      (S : List (String × List (Nat × List α))) (cs : List β) (W : List Nat),
    staleQueue S →
    ∃ S2, staleQueue S2 ∧
      enqs.foldl (fun st e => processRounds f e.2.length (enqueue e.1 e.2 st))
        ⟨S, outqAt0 cs, W, [], cs.length, 0⟩ =
      ⟨S2, outqAt0 (cs ++ ((enqs.map Prod.snd).flatten).map f),
       W ++ enqs.map (fun e => e.2.length), [],
       (cs ++ ((enqs.map Prod.snd).flatten).map f).length, 0⟩
  | [], S, cs, W => fun hS => ⟨S, hS, by simp⟩
  | (essid, pws) :: rest, S, cs, W => by
    intro hS
    rw [List.foldl_cons]
    have henq : ∃ S0 E1 E2, staleQueue S0 ∧ emptyVals E1 ∧ emptyVals E2 ∧
        enqueue (β := β) essid pws ⟨S, outqAt0 cs, W, [], cs.length, 0⟩ =
        ⟨S0 ++ [(essid, E1 ++ (cs.length, pws) :: E2)], outqAt0 cs,
         W ++ [pws.length], [], cs.length + pws.length, 0⟩ := by
      cases hlast : S.getLast? with
      | none =>
        have hnil : S = [] := by
          cases hq : S with
          | nil => rfl
          | cons a tl =>
            have hs : S.getLast?.isSome := by
              rw [List.getLast?_isSome, hq]
              simp
            rw [hlast] at hs
            simp at hs
        refine ⟨[], [], [], by simp [staleQueue], by simp [emptyVals],
          by simp [emptyVals], ?_⟩
        simp [enqueue, hlast, hnil]
      | some last =>
        obtain ⟨e, D⟩ := last
        have hdec := getLast?_decomp S (e, D) hlast
        have hlastmem : (e, D) ∈ S := by
          rw [hdec]
          exact List.mem_append_right _ (by simp)
        obtain ⟨hDne, hDe⟩ := hS (e, D) hlastmem
        by_cases hess : e = essid
        · subst hess
          obtain ⟨E1, E2, heq, he1, he2⟩ := dictSet_decomp cs.length pws D hDe
          refine ⟨S.dropLast, E1, E2,
            fun x hx => hS x (List.mem_of_mem_dropLast hx), he1, he2, ?_⟩
          simp only [enqueue, hlast, if_pos rfl]
          rw [heq]
          simp
        · refine ⟨S, [], [], hS, by simp [emptyVals], by simp [emptyVals], ?_⟩
          simp only [enqueue, hlast, if_neg hess]
          rfl
    obtain ⟨S0, E1, E2, hS0, he1, he2, henq2⟩ := henq
    rw [henq2]
    obtain ⟨S1, hS1, hproc⟩ := processRounds_canonical f pws S0 essid E1 E2 cs
      (W ++ [pws.length]) (cs.length + pws.length) hS0 he1 he2
    rw [hproc]
    have hidx : (⟨S1, outqAt0 (cs ++ pws.map f), W ++ [pws.length], [],
        cs.length + pws.length, 0⟩ : SchedState α β) =
        ⟨S1, outqAt0 (cs ++ pws.map f), W ++ [pws.length], [],
          (cs ++ pws.map f).length, 0⟩ := by
      simp
    rw [hidx]
    obtain ⟨S2, hS2, hrec⟩ := enqueueProcess_canonical f rest S1
      (cs ++ pws.map f) (W ++ [pws.length]) hS1
    refine ⟨S2, hS2, ?_⟩
    rw [hrec]
    simp [List.append_assoc, List.map_append]

theorem dequeueAll_canonical {α β : Type} (f : α → β) :
    ∀ (rest : List (String × List α))
      (S2 : List (String × List (Nat × List α)))
      (sl : List ((String × List α) × List (List (Nat × Nat)))) (ii o : Nat),
    dequeueAll rest.length
      (⟨S2, [(o, ((rest.map Prod.snd).flatten).map f)],
        rest.map (fun e => e.2.length), sl, ii, o⟩ : SchedState α β) =
      rest.map (fun e => some (e.2.map f))
  | [], S2, sl, ii, o => by simp [dequeueAll]
  | (e0, pws0) :: rest', S2, sl, ii, o => by
    have hL : ((((e0, pws0) :: rest').map Prod.snd).flatten).map f =
        List.map f pws0 ++ ((rest'.map Prod.snd).flatten).map f := by
      simp
    have hstep : dequeueStep (⟨S2,
        [(o, ((((e0, pws0) :: rest').map Prod.snd).flatten).map f)],
        ((e0, pws0) :: rest').map (fun e => e.2.length), sl, ii, o⟩ :
          SchedState α β) =
        .ready (List.map f pws0)
          ⟨S2, [(o + pws0.length, ((rest'.map Prod.snd).flatten).map f)],
           rest'.map (fun e => e.2.length), sl, ii, o + pws0.length⟩ := by
      have htake : (List.map f pws0 ++
          ((rest'.map Prod.snd).flatten).map f).take pws0.length =
          List.map f pws0 :=
        List.take_left' (by simp)
      have hdrop : (List.map f pws0 ++
          ((rest'.map Prod.snd).flatten).map f).drop pws0.length =
          ((rest'.map Prod.snd).flatten).map f :=
        List.drop_left' (by simp)
      have hfind : assocFind o [(o, List.map f pws0 ++
          ((rest'.map Prod.snd).flatten).map f)] =
          some (List.map f pws0 ++ ((rest'.map Prod.snd).flatten).map f) := by
        simp [assocFind]
      have hne : ¬((List.map f pws0 ++
          ((rest'.map Prod.snd).flatten).map f).length < pws0.length) := by
        simp
      rw [hL, dequeueStep.eq_def]
      dsimp only [List.map_cons]
      rw [hfind]
      dsimp only
      rw [if_neg hne]
      rw [htake, hdrop]
      simp [assocErase, dictSet]
    rw [List.length_cons, dequeueAll, hstep]
    dsimp only
    rw [dequeueAll_canonical f rest' S2 sl ii (o + pws0.length)]
    simp

/-- C1: along the canonical complete schedule (one core, `f` mapping each
password to its result, each enqueue fully gathered in slices of one and
scattered before the next call), every sequence of enqueue calls yields,
at the i-th dequeue, exactly the image under `f` of the i-th enqueue's
password list, in submission order: FIFO across ESSIDs, input order
preserved within each enqueue.  (If every enqueue carries zero passwords
and at least one call was made, the code blocks instead, hence the
hypothesis.) -/
theorem C1_scheduler_fifo {α β : Type} [DecidableEq α] (f : α → β)
    (enqs : List (String × List α))
    (h : enqs = [] ∨ ((enqs.map Prod.snd).flatten) ≠ []) :
    canonicalRun f enqs = enqs.map (fun e => some (e.2.map f)) := by
  obtain ⟨S2, _, hfold⟩ :=
    enqueueProcess_canonical f enqs [] [] [] (by simp [staleQueue])
  cases h with
  | inl he =>
    subst he
    rfl
  | inr hne =>
    unfold canonicalRun
    have hinit : (initSched α β) =
        ⟨[], outqAt0 [], [], [], ([] : List β).length, 0⟩ := rfl
    rw [hinit, hfold]
    have hmap : (((enqs.map Prod.snd).flatten).map f) ≠ [] := fun hm =>
      hne (List.map_eq_nil_iff.mp hm)
    have ho : outqAt0 (((enqs.map Prod.snd).flatten).map f) =
        [(0, ((enqs.map Prod.snd).flatten).map f)] := by
      unfold outqAt0
      rw [if_neg (by simpa [List.isEmpty_iff] using hmap)]
    simp only [List.nil_append]
    rw [ho]
    exact dequeueAll_canonical f enqs S2 []
      ((((enqs.map Prod.snd).flatten).map f).length) 0

theorem C1_scheduler_fifo_witness :
    ((([("a", [1, 2]), ("b", [3])] : List (String × List Nat)) = [] ∨
      (([("a", [1, 2]), ("b", [3])].map Prod.snd).flatten : List Nat) ≠ [])) ∧
    canonicalRun (fun n => n + 10) [("a", [1, 2]), ("b", [3])] =
      [some [11, 12], some [13]] := by
  refine ⟨Or.inr (by decide), ?_⟩
  have h := C1_scheduler_fifo (fun n => n + 10) [("a", [1, 2]), ("b", [3])]
    (Or.inr (by decide))
  rw [h]
  rfl
